import Mathlib

/-!
Verification development for the Merrell-style grammar core
(`src/lib/grammar-core`: MerrellGraph.cpp, MerrellGrammar.cpp, DPORule.cpp).

Shallow embedding conventions:
* `std::vector<T>` becomes `List T`; ids stay `Int` (C++ `int`, `-1` sentinel).
* `glm::vec2` becomes `ℚ × ℚ` (float positions idealised as exact rationals).
* Angles (`float theta`, radians) become exact rationals.  The source constant
  `MG_PI` (the binary32 rounding of pi) becomes the exact rational `piQ`
  (a fixed rational approximation of pi; see its doc comment).
  Every angle the grid-first pipeline manufactures is an integer multiple of
  `piQ / 2` (`gridDirToTheta` plus the `+ MG_PI mod 2 MG_PI` twin rule), and
  the source compares angles only through epsilon tests (1e-5 on the
  cross-product, 1e-4 on the gluing compatibility difference) whose outcomes
  at these angles do not depend on the approximation.  `sinQ` / `cosQ` below give the exact values of sin/cos at
  the quarter-turn multiples of `piQ`; away from those angles they return
  placeholder magnitudes with the correct sign, which no pipeline input ever
  reaches.
* Pointer-mediated mutation of a `std::vector` element found by id becomes
  `updFirst*` (update the first list entry with that id), matching the
  linear-scan accessors `MerrellGraph::vertex/halfEdge/face`.
* `std::cout` diagnostics and the optional progress callbacks are pure
  observers and are dropped.

The header `MerrellGraph.h` omits the `edge_label` field of
`BoundaryElement`, but the implementation file (`toString`, `boundaryOf`,
`outerBoundary`) reads and writes it; the implementation file is taken as
authoritative and the field is included.
-/

set_option maxHeartbeats 4000000
set_option maxRecDepth 100000

namespace Merrell

/-- The source constant `MG_PI = 3.14159265358979323846f` idealised as a
fixed rational approximation of pi (355/113, within 3e-7 of pi).  Every
angle the pipeline manufactures is an integer multiple of `piQ / 2`, and the
source only compares angles through epsilon tests (1e-5, 1e-4, 1e-3) whose
outcomes at those angles are the same for every constant this close to pi,
so the choice of approximation is observationally irrelevant; a small
denominator keeps the exact rational arithmetic kernel-reducible. -/
def piQ : ℚ := mkRat 355 113

/-- `x / piQ` reduced into `[0, 2)`: the position of the angle `x` within one
full turn, measured in half-turns of `piQ`. -/
def halfTurns (x : ℚ) : ℚ :=
  let q := x / piQ
  q - 2 * ((Int.floor (q / 2) : Int) : ℚ)

/-- Model of float `std::sin` at the angles produced by the grid-first
pipeline: exact at integer multiples of `piQ / 2`; at other angles the sign
is correct and the magnitude is a placeholder (no pipeline angle reaches
those cases). -/
def sinQ (x : ℚ) : ℚ :=
  let r := halfTurns x
  if r = 0 then 0
  else if r = mkRat 1 2 then 1
  else if r = 1 then 0
  else if r = mkRat 3 2 then -1
  else if r < 1 then mkRat 1 2 else -(mkRat 1 2)

/-- Model of float `std::cos`, companion to `sinQ`. -/
def cosQ (x : ℚ) : ℚ :=
  let r := halfTurns x
  if r = 0 then 1
  else if r = mkRat 1 2 then 0
  else if r = 1 then -1
  else if r = mkRat 3 2 then 0
  else if r < mkRat 1 2 then mkRat 1 2
  else if r < mkRat 3 2 then -(mkRat 1 2) else mkRat 1 2

/-- `std::abs` on the rational embedding of float (Mathlib's lattice `abs`
is avoided because its instance chain does not reduce). -/
def absQ (q : ℚ) : ℚ := if q < 0 then -q else q

/-- Decimal rendering of a C++ `int` streamed with `operator<<`. -/
def intRepr (i : Int) : String :=
  match i with
  | Int.ofNat n => Nat.repr n
  | Int.negSucc n => "-" ++ Nat.repr (n + 1)

/-- `EdgeLabel` (MerrellGraph.h): abstract label on one directed half-edge. -/
structure EdgeLabel where
  l : String := ""
  r : String := ""
  theta : ℚ := 0
deriving DecidableEq, Repr

instance : Inhabited EdgeLabel := ⟨{}⟩

/-- `TurnType` (MerrellGraph.h). -/
inductive TurnType
  | Positive
  | Negative
deriving DecidableEq, Repr

/-- `BoundaryElement` (MerrellGraph.h + the `edge_label` field used by
MerrellGraph.cpp): either an edge or a turn in a boundary string. -/
structure BoundaryElement where
  is_turn : Bool := false
  edge_id : Int := -1
  edge_label : String := ""
  turn_type : TurnType := TurnType.Positive
deriving DecidableEq, Repr

instance : Inhabited BoundaryElement := ⟨{}⟩

/-- `BoundaryString` (MerrellGraph.h). -/
structure BoundaryString where
  elements : List BoundaryElement := []
deriving DecidableEq, Repr

instance : Inhabited BoundaryString := ⟨{}⟩

/-- `BoundaryString::totalTurnCount` (MerrellGraph.cpp:16). -/
def BoundaryString.totalTurnCount (bs : BoundaryString) : Int :=
  bs.elements.foldl
    (fun count e =>
      if e.is_turn then
        (if e.turn_type = TurnType.Positive then count + 1 else count - 1)
      else count) 0

/-- `BoundaryString::isComplete` (MerrellGraph.cpp:25). -/
def BoundaryString.isComplete (bs : BoundaryString) : Bool :=
  bs.totalTurnCount.natAbs = 4

/-- `BoundaryString::isEmpty` (MerrellGraph.h). -/
def BoundaryString.isEmpty (bs : BoundaryString) : Bool :=
  bs.elements.isEmpty

/-- The `elemEqual` lambda inside `isCircularlyEqual` (MerrellGraph.cpp:40):
turns compare by turn type, edges compare by edge id (not by label). -/
def elemEqual (a b : BoundaryElement) : Bool :=
  if a.is_turn ≠ b.is_turn then false
  else if a.is_turn then a.turn_type = b.turn_type
  else a.edge_id = b.edge_id

/-- `BoundaryString::isCircularlyEqual` (MerrellGraph.cpp:33): try every
rotation offset of `s` against `other`, element by element. -/
def BoundaryString.isCircularlyEqual (s other : BoundaryString) : Bool :=
  if s.elements.length ≠ other.elements.length then false
  else if s.elements.isEmpty then true
  else
    let n := s.elements.length
    (List.range n).any (fun offset =>
      (List.range n).all (fun i =>
        elemEqual (s.elements.getD ((i + offset) % n) default)
                  (other.elements.getD i default)))

/-- `BoundaryString::rotated` (MerrellGraph.cpp:98).  The C++ offset is an
`int`; `(i + offset) % n` is C truncated division, modelled by `Int.tmod`
(for the `0 ≤ offset < n` uses of the claims the two coincide). -/
def BoundaryString.rotated (s : BoundaryString) (offset : Int) : BoundaryString :=
  if s.elements.isEmpty then {}
  else
    let n := s.elements.length
    { elements :=
        (List.range n).map (fun i =>
          s.elements.getD (((Int.ofNat i + offset).tmod (Int.ofNat n)).toNat) default) }

/-- `BoundaryString::toString` (MerrellGraph.cpp:109): `^`/`v` for turns,
`O`/`X`/`G`/`?` plus the edge id for edges. -/
def BoundaryString.toString (bs : BoundaryString) : String :=
  bs.elements.foldl
    (fun acc e =>
      if e.is_turn then
        acc ++ (match e.turn_type with
                | TurnType.Positive => "^"
                | TurnType.Negative => "v")
      else
        let typeChar : String :=
          if e.edge_label = "open" then "O"
          else if e.edge_label = "exterior" then "X"
          else if e.edge_label = "glued" then "G"
          else "?"
        acc ++ typeChar ++ intRepr e.edge_id) ""

/-- `MGHalfEdge` (MerrellGraph.h). -/
structure MGHalfEdge where
  id : Int := -1
  twin : Int := -1
  next : Int := -1
  prev : Int := -1
  vertex : Int := -1
  face : Int := -1
  label : EdgeLabel := {}
deriving DecidableEq, Repr

instance : Inhabited MGHalfEdge := ⟨{}⟩

/-- `MGVertex` (MerrellGraph.h). -/
structure MGVertex where
  id : Int := -1
  pos : ℚ × ℚ := (0, 0)
  outgoing_he : Int := -1
deriving DecidableEq, Repr

instance : Inhabited MGVertex := ⟨{}⟩

/-- `MGFace` (MerrellGraph.h). -/
structure MGFace where
  id : Int := -1
  start_he : Int := -1
  label : String := ""
  degree : Int := 0
deriving DecidableEq, Repr

instance : Inhabited MGFace := ⟨{}⟩

/-- `MerrellGraph` (MerrellGraph.h): flat id-indexed element collections plus
monotonic id counters. -/
structure MerrellGraph where
  vertices : List MGVertex := []
  halfEdges : List MGHalfEdge := []
  faces : List MGFace := []
  nextVertexId : Int := 0
  nextHalfEdgeId : Int := 0
  nextFaceId : Int := 0
deriving DecidableEq, Repr

instance : Inhabited MerrellGraph := ⟨{}⟩

/-- Mutation through a pointer returned by the linear-scan accessor: update
the first half-edge with the given id (the C++ accessors return the first
match of a linear scan). -/
def updFirstHE : List MGHalfEdge → Int → (MGHalfEdge → MGHalfEdge) → List MGHalfEdge
  | [], _, _ => []
  | he :: rest, i, f =>
    if he.id = i then f he :: rest else he :: updFirstHE rest i f

/-- Update the first vertex with the given id. -/
def updFirstV : List MGVertex → Int → (MGVertex → MGVertex) → List MGVertex
  | [], _, _ => []
  | v :: rest, i, f =>
    if v.id = i then f v :: rest else v :: updFirstV rest i f

/-- Update the first face with the given id. -/
def updFirstF : List MGFace → Int → (MGFace → MGFace) → List MGFace
  | [], _, _ => []
  | fc :: rest, i, f =>
    if fc.id = i then f fc :: rest else fc :: updFirstF rest i f

/-- `MerrellGraph::halfEdge(id)` (MerrellGraph.cpp:284): linear scan, first
match. -/
def MerrellGraph.halfEdge (g : MerrellGraph) (i : Int) : Option MGHalfEdge :=
  g.halfEdges.find? (fun he => he.id == i)

/-- `MerrellGraph::vertex(id)` (MerrellGraph.cpp:283). -/
def MerrellGraph.vertex (g : MerrellGraph) (i : Int) : Option MGVertex :=
  g.vertices.find? (fun v => v.id == i)

/-- `MerrellGraph::face(id)` (MerrellGraph.cpp:285). -/
def MerrellGraph.face (g : MerrellGraph) (i : Int) : Option MGFace :=
  g.faces.find? (fun f => f.id == i)

/-- `MerrellGraph::isEmpty` (MerrellGraph.h). -/
def MerrellGraph.isEmpty (g : MerrellGraph) : Bool := g.vertices.isEmpty

/-- `MerrellGraph::faceCount` (MerrellGraph.h). -/
def MerrellGraph.faceCount (g : MerrellGraph) : Int := Int.ofNat g.faces.length

/-- `MerrellGraph::edgeCount` (MerrellGraph.h): half-edge count divided by
two (integer division). -/
def MerrellGraph.edgeCount (g : MerrellGraph) : Int :=
  Int.ofNat (g.halfEdges.length / 2)

/-- `MerrellGraph::vertexCount` (MerrellGraph.h). -/
def MerrellGraph.vertexCount (g : MerrellGraph) : Int :=
  Int.ofNat g.vertices.length

/-- `MerrellGraph::addVertex` (MerrellGraph.cpp:141).  Returns the mutated
graph and the new id (the C++ method returns the id and mutates `*this`). -/
def MerrellGraph.addVertex (g : MerrellGraph) (pos : ℚ × ℚ) : MerrellGraph × Int :=
  let v : MGVertex := { id := g.nextVertexId, pos := pos, outgoing_he := -1 }
  ({ g with vertices := g.vertices ++ [v], nextVertexId := g.nextVertexId + 1 },
   v.id)

/-- `MerrellGraph::addFace` (MerrellGraph.cpp:150). -/
def MerrellGraph.addFace (g : MerrellGraph) (label : String) : MerrellGraph × Int :=
  let f : MGFace := { id := g.nextFaceId, start_he := -1, label := label, degree := 0 }
  ({ g with faces := g.faces ++ [f], nextFaceId := g.nextFaceId + 1 }, f.id)

/-- `MerrellGraph::addHalfEdgePair` (MerrellGraph.cpp:159): forward half-edge
`v0 → v1` with the given label, twin `v1 → v0` with l/r swapped and theta
rotated by `MG_PI` (reduced below `2 MG_PI`). -/
def MerrellGraph.addHalfEdgePair (g : MerrellGraph) (v0 v1 : Int)
    (label : EdgeLabel) : MerrellGraph × Int :=
  let heId := g.nextHalfEdgeId
  let twinTheta0 := label.theta + piQ
  let twinTheta := if twinTheta0 ≥ 2 * piQ then twinTheta0 - 2 * piQ else twinTheta0
  let twinLabel : EdgeLabel := { l := label.r, r := label.l, theta := twinTheta }
  let he : MGHalfEdge :=
    { id := heId, twin := heId + 1, next := -1, prev := -1,
      vertex := v0, face := -1, label := label }
  let twin : MGHalfEdge :=
    { id := heId + 1, twin := heId, next := -1, prev := -1,
      vertex := v1, face := -1, label := twinLabel }
  ({ g with halfEdges := g.halfEdges ++ [he, twin], nextHalfEdgeId := heId + 2 },
   heId)

/-- `MerrellGraph::linkFaceLoop` (MerrellGraph.cpp:190): wire `next`/`prev`
circularly, stamp `face`, set the face's `start_he`/`degree`, back-fill each
incident vertex's `outgoing_he` when unset. -/
def MerrellGraph.linkFaceLoop (g : MerrellGraph) (faceId : Int)
    (heIds : List Int) : MerrellGraph :=
  if heIds.isEmpty then g
  else
    match g.face faceId with
    | none => g
    | some _ =>
      let n := heIds.length
      let g1 := (List.range n).foldl
        (fun g i =>
          let heId := heIds.getD i (-1)
          let nxtId := heIds.getD ((i + 1) % n) (-1)
          let prvId := heIds.getD ((i + n - 1) % n) (-1)
          match g.halfEdge heId, g.halfEdge nxtId, g.halfEdge prvId with
          | some _, some _, some _ =>
            { g with halfEdges := (updFirstHE g.halfEdges heId
                (fun he => { he with next := nxtId, prev := prvId, face := faceId })) }
          | _, _, _ => g) g
      let g2 := { g1 with faces := (updFirstF g1.faces faceId
          (fun f => { f with start_he := heIds.getD 0 (-1), degree := Int.ofNat n })) }
      heIds.foldl
        (fun g heId =>
          match g.halfEdge heId with
          | none => g
          | some he =>
            match g.vertex he.vertex with
            | none => g
            | some v =>
              if v.outgoing_he = -1 then
                { g with vertices := (updFirstV g.vertices he.vertex
                    (fun v => { v with outgoing_he := heId })) }
              else g) g2

/-- `MerrellGraph::clear` (MerrellGraph.cpp:131). -/
def MerrellGraph.clear (_g : MerrellGraph) : MerrellGraph := {}

/-- `MerrellGraph::mergeVertices` (MerrellGraph.cpp:226): repoint every
half-edge starting at `fromId` to `toId`, then delete every vertex with id
`fromId`. -/
def MerrellGraph.mergeVertices (g : MerrellGraph) (fromId toId : Int) : MerrellGraph :=
  if fromId = toId then g
  else
    { g with
      halfEdges := g.halfEdges.map
        (fun he => if he.vertex = fromId then { he with vertex := toId } else he),
      vertices := g.vertices.filter (fun v => !(v.id == fromId)) }

/-- The `patch` lambda inside `removeHalfEdgePair` (MerrellGraph.cpp:252):
stitch `prev`/`next` around the half-edge with id `i` and retarget any face
whose `start_he` points at it. -/
def removePatch (g : MerrellGraph) (i : Int) : MerrellGraph :=
  match g.halfEdge i with
  | none => g
  | some h =>
    let prevId := h.prev
    let nextId := h.next
    let g :=
      if prevId ≥ 0 then
        { g with halfEdges := (updFirstHE g.halfEdges prevId
            (fun p => if p.next = i then { p with next := nextId } else p)) }
      else g
    let g :=
      if nextId ≥ 0 then
        { g with halfEdges := (updFirstHE g.halfEdges nextId
            (fun nx => if nx.prev = i then { nx with prev := prevId } else nx)) }
      else g
    { g with faces := (g.faces.map
        (fun f => if f.start_he = i then
            { f with start_he := if nextId ≠ i then nextId else -1 }
          else f)) }

/-- `MerrellGraph::removeHalfEdgePair` (MerrellGraph.cpp:245): patch around
the half-edge and its twin, then erase both ids. -/
def MerrellGraph.removeHalfEdgePair (g : MerrellGraph) (heId : Int) : MerrellGraph :=
  match g.halfEdge heId with
  | none => g
  | some he =>
    let twinId := he.twin
    let g := removePatch g heId
    let g := if twinId ≠ -1 then removePatch g twinId else g
    { g with halfEdges := (g.halfEdges.filter
        (fun h => !(h.id == heId || h.id == twinId))) }

/-- The cross product `cos t0 * sin t1 - sin t0 * cos t1` used by both
boundary walks (MerrellGraph.cpp:323 and :438). -/
def crossOf (t0 t1 : ℚ) : ℚ :=
  cosQ t0 * sinQ t1 - sinQ t0 * cosQ t1

/-- Turn insertion rule shared by `boundaryOf` and `outerBoundary`: a turn
element whenever the cross product clears the 1e-5 epsilon, positive cross
meaning a positive (left) turn. -/
def turnBetween (t0 t1 : ℚ) : Option BoundaryElement :=
  let cross := crossOf t0 t1
  if absQ cross > mkRat 1 100000 then
    some { is_turn := true,
           turn_type := if cross > 0 then TurnType.Positive else TurnType.Negative }
  else none

/-- The face-loop gathering do-while of `boundaryOf` (MerrellGraph.cpp:300):
follow `next` from `start_he`, stop on lookup failure, on returning to the
start, or after 1000 steps (the `safety` counter). -/
def collectLoop (g : MerrellGraph) (start : Int) :
    Nat → Int → List MGHalfEdge → List MGHalfEdge
  | 0, _, acc => acc.reverse
  | Nat.succ fuel, cur, acc =>
    match g.halfEdge cur with
    | none => acc.reverse
    | some he =>
      if he.next = start then (he :: acc).reverse
      else collectLoop g start fuel he.next (he :: acc)

/-- The boundary-string build loop of `boundaryOf` (MerrellGraph.cpp:312):
one edge element per loop half-edge, a turn element between consecutive
half-edges whose thetas are not parallel. -/
def boundaryFromLoop (loop : List MGHalfEdge) : BoundaryString :=
  let n := loop.length
  { elements :=
      (List.range n).foldl
        (fun acc i =>
          let he := loop.getD i default
          let nxt := loop.getD ((i + 1) % n) default
          let edgeElem : BoundaryElement :=
            { is_turn := false, edge_id := he.id, edge_label := he.label.r }
          match turnBetween he.label.theta nxt.label.theta with
          | some t => acc ++ [edgeElem, t]
          | none => acc ++ [edgeElem]) [] }

/-- `MerrellGraph::boundaryOf` (MerrellGraph.cpp:294). -/
def MerrellGraph.boundaryOf (g : MerrellGraph) (faceId : Int) : BoundaryString :=
  match g.face faceId with
  | none => {}
  | some f =>
    if f.start_he = -1 then {}
    else
      let loop := collectLoop g f.start_he 1000 f.start_he []
      if loop.isEmpty then {} else boundaryFromLoop loop

/-- The `isBoundaryHE` lambda of `outerBoundary` (MerrellGraph.cpp:361): a
half-edge is on the outer boundary iff it is cut (`twin == -1`) or its twin
carries no face. -/
def MerrellGraph.isBoundaryHE (g : MerrellGraph) (heId : Int) : Bool :=
  match g.halfEdge heId with
  | none => false
  | some he =>
    if he.twin = -1 then true
    else
      match g.halfEdge he.twin with
      | some tw => tw.face = -1
      | none => false

/-- The `endVertOf` lambda of `outerBoundary` (MerrellGraph.cpp:377): the end
vertex of a half-edge is the start vertex of its twin. -/
def MerrellGraph.endVertOf (g : MerrellGraph) (heId : Int) : Int :=
  match g.halfEdge heId with
  | none => -1
  | some he =>
    if he.twin = -1 then -1
    else
      match g.halfEdge he.twin with
      | some tw => tw.vertex
      | none => -1

/-- The walk of `outerBoundary` (MerrellGraph.cpp:400): record the current
boundary edge, move to its end vertex, and pick the next unvisited boundary
edge leaving that vertex that is not the current edge's twin; insert turn
elements between consecutive edges.  Fuel models the
`++safety > maxLen` bound. -/
def outerWalk (g : MerrellGraph) (startId : Int) (bIds : List Int) :
    Nat → Int → List Int → List BoundaryElement → List BoundaryElement
  | 0, _, _, acc => acc.reverse
  | Nat.succ fuel, curId, visited, acc =>
    if curId ∈ visited then acc.reverse
    else
      let visited := curId :: visited
      match g.halfEdge curId with
      | none => acc.reverse
      | some he =>
        let acc := ({ is_turn := false, edge_id := curId,
                      edge_label := he.label.r } : BoundaryElement) :: acc
        let endVert := g.endVertOf curId
        if endVert = -1 then acc.reverse
        else
          let cands := bIds.filter (fun bid =>
            match g.halfEdge bid with
            | some bhe => bhe.vertex == endVert
            | none => false)
          if cands.isEmpty then acc.reverse
          else
            match cands.find? (fun cand =>
                !(cand == he.twin) &&
                (!(visited.contains cand) || cand == startId)) with
            | none => acc.reverse
            | some nextId =>
              let acc :=
                match g.halfEdge nextId with
                | some nextHe =>
                  match turnBetween he.label.theta nextHe.label.theta with
                  | some t => t :: acc
                  | none => acc
                | none => acc
              if nextId = startId then acc.reverse
              else outerWalk g startId bIds fuel nextId visited acc

/-- `MerrellGraph::outerBoundary` (MerrellGraph.cpp:335). -/
def MerrellGraph.outerBoundary (g : MerrellGraph) : BoundaryString :=
  let boundaryIds := (g.halfEdges.map (fun he => he.id)).filter
    (fun i => g.isBoundaryHE i)
  if boundaryIds.isEmpty then {}
  else
    let startId := boundaryIds.getD 0 (-1)
    let maxLen := boundaryIds.length * 2 + 4
    { elements := outerWalk g startId boundaryIds maxLen startId [] [] }

/-- Componentwise subtraction of `glm::vec2`. -/
def vsub (a b : ℚ × ℚ) : ℚ × ℚ := (a.1 - b.1, a.2 - b.2)

/-- Componentwise addition of `glm::vec2`. -/
def vadd (a b : ℚ × ℚ) : ℚ × ℚ := (a.1 + b.1, a.2 + b.2)

/-- `appendGraph` (MerrellGrammar.cpp:180): copy `src` into `dst`, offsetting
all ids. -/
def appendGraph (dst src : MerrellGraph) (vertOff heOff faceOff : Int) : MerrellGraph :=
  let dst := { dst with vertices := dst.vertices ++ src.vertices.map (fun (v : MGVertex) =>
    { v with id := v.id + vertOff,
             outgoing_he := if v.outgoing_he ≥ 0 then v.outgoing_he + heOff else -1 }) }
  let dst := { dst with halfEdges := dst.halfEdges ++ src.halfEdges.map (fun (he : MGHalfEdge) =>
    { he with id := he.id + heOff,
              twin := if he.twin ≥ 0 then he.twin + heOff else -1,
              next := if he.next ≥ 0 then he.next + heOff else -1,
              prev := if he.prev ≥ 0 then he.prev + heOff else -1,
              vertex := he.vertex + vertOff,
              face := if he.face ≥ 0 then he.face + faceOff else -1 }) }
  { dst with faces := dst.faces ++ src.faces.map (fun (f : MGFace) =>
    { f with id := f.id + faceOff,
             start_he := if f.start_he ≥ 0 then f.start_he + heOff else -1 }) }

/-- The translated append of B inside `loopGlue` (MerrellGrammar.cpp:243):
same id offsets as `appendGraph` plus a rigid position offset on every
vertex. -/
def appendGraphPos (dst src : MerrellGraph) (vertOff heOff faceOff : Int)
    (posOff : ℚ × ℚ) : MerrellGraph :=
  let dst := { dst with vertices := dst.vertices ++ src.vertices.map (fun (v : MGVertex) =>
    { v with id := v.id + vertOff,
             outgoing_he := if v.outgoing_he ≥ 0 then v.outgoing_he + heOff else -1,
             pos := vadd v.pos posOff }) }
  let dst := { dst with halfEdges := dst.halfEdges ++ src.halfEdges.map (fun (he : MGHalfEdge) =>
    { he with id := he.id + heOff,
              twin := if he.twin ≥ 0 then he.twin + heOff else -1,
              next := if he.next ≥ 0 then he.next + heOff else -1,
              prev := if he.prev ≥ 0 then he.prev + heOff else -1,
              vertex := he.vertex + vertOff,
              face := if he.face ≥ 0 then he.face + faceOff else -1 }) }
  { dst with faces := dst.faces ++ src.faces.map (fun (f : MGFace) =>
    { f with id := f.id + faceOff,
             start_he := if f.start_he ≥ 0 then f.start_he + heOff else -1 }) }

/-- The combined graph `loopGlue` builds before seam surgery
(MerrellGrammar.cpp:222-273): A appended at zero offset, then B appended at
offsets; B's vertices are rigidly translated so that B's seam start vertex
lands on A's seam end vertex when the four lookups involved succeed, and are
appended untranslated otherwise (the C++ fallback path). -/
def glueCombined (A B : MerrellGraph) (heA_localId heB_localId : Int) : MerrellGraph :=
  let vertOff := Int.ofNat A.vertices.length
  let heOff := Int.ofNat A.halfEdges.length
  let faceOff := Int.ofNat A.faces.length
  let result := appendGraph {} A 0 0 0
  let translated : Option (ℚ × ℚ) :=
    match A.halfEdge heA_localId, B.halfEdge heB_localId with
    | some heA_orig, some heB_orig =>
      match A.halfEdge heA_orig.twin with
      | some heA_tw =>
        match A.vertex heA_tw.vertex, B.vertex heB_orig.vertex with
        | some vA_end, some vB_start => some (vsub vA_end.pos vB_start.pos)
        | _, _ => none
      | none => none
    | _, _ => none
  match translated with
  | some posOff => appendGraphPos result B vertOff heOff faceOff posOff
  | none => appendGraph result B vertOff heOff faceOff

/-- `loopGlue` (MerrellGrammar.cpp:213): glue graphs A and B along the open
half-edges `heA_localId` (in A) and `heB_localId` (in B).  Returns `none`
exactly where the C++ returns `false` (and the caller discards the partially
built result). -/
def loopGlue (A B : MerrellGraph) (heA_localId heB_localId : Int) :
    Option MerrellGraph :=
  let heOff := Int.ofNat A.halfEdges.length
  let g0 := glueCombined A B heA_localId heB_localId
  let heA := heA_localId
  let heB := heB_localId + heOff
  match g0.halfEdge heA, g0.halfEdge heB with
  | some a0, some b0 =>
    let heA_twin := a0.twin
    let heB_twin := b0.twin
    match g0.halfEdge heA_twin, g0.halfEdge heB_twin with
    | some a_twin0, some b_twin0 =>
      let v0_a := a0.vertex
      let v1_a := a_twin0.vertex
      let v0_b := b0.vertex
      let v1_b := b_twin0.vertex
      let g1 := g0.mergeVertices v0_b v1_a
      let g2 := g1.mergeVertices v1_b v0_a
      match g2.halfEdge heA, g2.halfEdge heB, g2.halfEdge heA_twin,
            g2.halfEdge heB_twin with
      | some a1, some b1, some _, some _ =>
        let a_prev_id := a1.prev
        let a_next_id := a1.next
        let b_prev_id := b1.prev
        let b_next_id := b1.next
        let aPrevOk := decide (a_prev_id ≥ 0) && (g2.halfEdge a_prev_id).isSome
        let aNextOk := decide (a_next_id ≥ 0) && (g2.halfEdge a_next_id).isSome
        let bPrevOk := decide (b_prev_id ≥ 0) && (g2.halfEdge b_prev_id).isSome
        let bNextOk := decide (b_next_id ≥ 0) && (g2.halfEdge b_next_id).isSome
        let g3 :=
          if aPrevOk && bNextOk then
            let g := { g2 with halfEdges := (updFirstHE g2.halfEdges a_prev_id
                (fun p => { p with next := b_next_id })) }
            { g with halfEdges := (updFirstHE g.halfEdges b_next_id
                (fun nx => { nx with prev := a_prev_id })) }
          else g2
        let g4 :=
          if bPrevOk && aNextOk then
            let g := { g3 with halfEdges := (updFirstHE g3.halfEdges b_prev_id
                (fun p => { p with next := a_next_id })) }
            { g with halfEdges := (updFirstHE g.halfEdges a_next_id
                (fun nx => { nx with prev := b_prev_id })) }
          else g3
        let g5 := { g4 with faces := (g4.faces.map (fun (f : MGFace) =>
            let s1 := if f.start_he = heA then
                (if a_next_id ≥ 0 then a_next_id else -1) else f.start_he
            let s2 := if s1 = heB then
                (if b_next_id ≥ 0 then b_next_id else -1) else s1
            { f with start_he := s2 })) }
        let g6 := { g5 with halfEdges := (updFirstHE g5.halfEdges heA
            (fun e => { e with twin := heB })) }
        let g7 := { g6 with halfEdges := (updFirstHE g6.halfEdges heB
            (fun e => { e with twin := heA })) }
        let g8 := { g7 with halfEdges := (updFirstHE g7.halfEdges heA_twin
            (fun e => { e with twin := heB_twin })) }
        let g9 := { g8 with halfEdges := (updFirstHE g8.halfEdges heB_twin
            (fun e => { e with twin := heA_twin })) }
        let gA := { g9 with halfEdges := (updFirstHE g9.halfEdges heA
            (fun e => { e with label := { e.label with r := "glued" } })) }
        let gB := { gA with halfEdges := (updFirstHE gA.halfEdges heB
            (fun e => { e with label := { e.label with r := "glued" } })) }
        let gC := { gB with halfEdges := (updFirstHE gB.halfEdges heA_twin
            (fun e => { e with label := { e.label with r := "glued" } })) }
        let gD := { gC with halfEdges := (updFirstHE gC.halfEdges heB_twin
            (fun e => { e with label := { e.label with r := "glued" } })) }
        match gD.halfEdge heA_twin, gD.halfEdge heB with
        | some a_twin2, some b2 =>
          let gE :=
            if a_twin2.face = -1 then
              { gD with halfEdges := (updFirstHE gD.halfEdges heA_twin
                  (fun e => { e with face := b2.face })) }
            else gD
          match gE.halfEdge heB_twin, gE.halfEdge heA with
          | some b_twin2, some a2 =>
            some (if b_twin2.face = -1 then
                { gE with halfEdges := (updFirstHE gE.halfEdges heB_twin
                    (fun e => { e with face := a2.face })) }
              else gE)
          | _, _ => none
        | _, _ => none
      | _, _, _, _ => none
    | _, _ => none
  | _, _ => none

/-- `gridDirToTheta` (MerrellGraph.h:216). -/
def gridDirToTheta (dir : Int × Int) : ℚ :=
  if dir = ((1 : Int), (0 : Int)) then 0
  else if dir = ((0 : Int), (-1 : Int)) then piQ * mkRat 1 2
  else if dir = ((-1 : Int), (0 : Int)) then piQ
  else if dir = ((0 : Int), (1 : Int)) then piQ * mkRat 3 2
  else 0

/-- `TileInput` (MerrellGrammar.h): one placed tile instance (unused by
disassembly in the grid-first phase). -/
structure TileInput where
  label : String := ""
  cell : Int × Int := (0, 0)
  rotation : Int := 0
deriving DecidableEq, Repr

/-- `TileSocketDef` (MerrellGrammar.h): socket layout for one tile type. -/
structure TileSocketDef where
  label : String := ""
  sockets : List (Int × Int) := []
deriving DecidableEq, Repr

/-- `PlacedFace` (MerrellGrammar.h). -/
structure PlacedFace where
  faceId : Int := -1
  label : String := ""
  pos : ℚ × ℚ := (0, 0)
  rotation : ℚ := 0
deriving DecidableEq, Repr

/-- `GenerationResult` (MerrellGrammar.h). -/
structure GenerationResult where
  graph : MerrellGraph := {}
  placed : List PlacedFace := []
  success : Bool := false
  errorMsg : String := ""
deriving DecidableEq, Repr

instance : Inhabited GenerationResult := ⟨{}⟩

/-- `GrammarSettings` (MerrellGrammar.h) with its documented defaults. -/
structure GrammarSettings where
  seed : Int := 42
  maxIterations : Int := 4000
  minEdgeLength : ℚ := mkRat 1 2
  maxEdgeLength : ℚ := 2
  maxHierarchyGen : Int := 6
  maxRules : Int := 200
deriving DecidableEq, Repr

/-- `HierarchyNode` (MerrellGrammar.h). -/
structure HierarchyNode where
  id : Int := -1
  generation : Int := 0
  graph : MerrellGraph := {}
  boundary : BoundaryString := {}
  isComplete : Bool := false
  pruned : Bool := false
  parentIds : List Int := []
deriving DecidableEq, Repr

instance : Inhabited HierarchyNode := ⟨{}⟩

/-- `GraphMorphism` (DPORule.h): id maps for vertices, half-edges, faces.
`std::unordered_map<int,int>` becomes a keyed association list. -/
structure GraphMorphism where
  vertexMap : List (Int × Int) := []
  halfEdgeMap : List (Int × Int) := []
  faceMap : List (Int × Int) := []
deriving DecidableEq, Repr

/-- `map[k] = v` on an `unordered_map<int,int>`: overwrite the existing key
or insert a new one. -/
def mapSet (m : List (Int × Int)) (k v : Int) : List (Int × Int) :=
  if m.any (fun p => p.1 == k) then
    m.map (fun p => if p.1 == k then (k, v) else p)
  else m ++ [(k, v)]

/-- `RuleKind` (DPORule.h). -/
inductive RuleKind
  | LoopGlue
  | BranchGlue
  | Starter
  | Stub
  | General
deriving DecidableEq, Repr

/-- `DPORule` (DPORule.h). -/
structure DPORule where
  id : Int := -1
  name : String := ""
  kind : RuleKind := RuleKind.General
  L : MerrellGraph := {}
  R : MerrellGraph := {}
  I : MerrellGraph := {}
  phi_L : GraphMorphism := {}
  phi_R : GraphMorphism := {}
  boundary_L : BoundaryString := {}
  boundary_R : BoundaryString := {}
  extractedAtGeneration : Int := -1
  isStarterRule : Bool := false
deriving DecidableEq, Repr

/-- The grammar controller state: the private fields of `MerrellGrammar`
(MerrellGrammar.h) that the modelled operations read or write. -/
structure GrammarState where
  settings : GrammarSettings := {}
  primitives : List MerrellGraph := []
  hierarchy : List HierarchyNode := []
  rules : List DPORule := []
  result : GenerationResult := {}
  lastError : String := ""
deriving DecidableEq, Repr

/-- One primitive built by `loadFromTiles` (MerrellGrammar.cpp:28-64): one
unit-square face, four vertices, four half-edge pairs, socket edges labelled
`open`, sealed edges labelled `exterior`. -/
def buildPrimitive (td : TileSocketDef) : MerrellGraph :=
  let p0 := MerrellGraph.addFace {} td.label
  let faceId := p0.2
  let p1 := p0.1.addVertex (0, 1)
  let v0 := p1.2
  let p2 := p1.1.addVertex (1, 1)
  let v1 := p2.2
  let p3 := p2.1.addVertex (1, 0)
  let v2 := p3.2
  let p4 := p3.1.addVertex (0, 0)
  let v3 := p4.2
  let isSocket := fun (d : Int × Int) => td.sockets.contains d
  let mkLabel := fun (faceDir travelDir : Int × Int) =>
    ({ l := td.label,
       r := if isSocket faceDir then "open" else "exterior",
       theta := gridDirToTheta travelDir } : EdgeLabel)
  let q0 := p4.1.addHalfEdgePair v0 v1 (mkLabel (0, -1) (1, 0))
  let q1 := q0.1.addHalfEdgePair v1 v2 (mkLabel (1, 0) (0, 1))
  let q2 := q1.1.addHalfEdgePair v2 v3 (mkLabel (0, 1) (-1, 0))
  let q3 := q2.1.addHalfEdgePair v3 v0 (mkLabel (-1, 0) (0, -1))
  q3.1.linkFaceLoop faceId [q0.2, q1.2, q2.2, q3.2]

/-- `MerrellGrammar::loadFromTiles` (MerrellGrammar.cpp:17): clear the
primitive list and the error string, fail on an empty vocabulary, otherwise
build one primitive per socket definition (the tile instance list is
ignored by the grid-first disassembly). -/
def loadFromTiles (st : GrammarState) (socketDefs : List TileSocketDef)
    (_tiles : List TileInput) : GrammarState :=
  let st := { st with primitives := [], lastError := "" }
  if socketDefs.isEmpty then
    { st with lastError := "loadFromTiles: no socket definitions provided." }
  else
    { st with primitives := socketDefs.map buildPrimitive }

/-- The generation-0 seeding phase of `buildHierarchy`
(MerrellGrammar.cpp:380-390): one node per primitive, boundary cached from
the primitive's single face. -/
def seedHierarchy (st : GrammarState) : GrammarState :=
  { st with hierarchy := (st.primitives.foldl (fun hier prim =>
      let bnd := if prim.faces.isEmpty then ({} : BoundaryString)
                 else prim.boundaryOf (prim.faces.getD 0 default).id
      let node : HierarchyNode :=
        { id := Int.ofNat hier.length,
          generation := 0,
          graph := prim,
          boundary := bnd,
          isComplete := bnd.isComplete,
          pruned := false,
          parentIds := [] }
      hier ++ [node]) []) }

/-- Accumulator for the nested loops of `tryLoopGluings`: the growing
hierarchy, the dedup set of boundary strings, the new-node counter and the
`goto done` flag. -/
structure GlueAcc where
  hier : List HierarchyNode := []
  seen : List String := []
  newNodes : Int := 0
  stopped : Bool := false
deriving Repr

/-- One innermost iteration of `tryLoopGluings` (MerrellGrammar.cpp:526-575):
check theta complementarity, attempt the glue, compute the result boundary,
dedup by its `toString`, and append a hierarchy node. -/
def glueStep (generation : Int) (ai bi : Nat) (A B : MerrellGraph)
    (acc : GlueAcc) (p : Int × Int) : GlueAcc :=
  match A.halfEdge p.1, B.halfEdge p.2 with
  | some edgeA, some edgeB =>
    let thetaDiff := absQ (edgeA.label.theta - edgeB.label.theta)
    let complementary :=
      absQ (thetaDiff - piQ) < mkRat 1 10000 ∨ absQ (thetaDiff - piQ - 2 * piQ) < mkRat 1 10000
    if complementary then
      match loopGlue A B p.1 p.2 with
      | none => acc
      | some result =>
        let ob := result.outerBoundary
        let bs := if ob.isEmpty ∧ ¬ result.faces.isEmpty then
            result.boundaryOf (result.faces.getD 0 default).id
          else ob
        let bsStr := bs.toString
        if acc.seen.contains bsStr then acc
        else
          let node : HierarchyNode :=
            { id := Int.ofNat acc.hier.length,
              generation := generation + 1,
              graph := result,
              boundary := bs,
              isComplete := bs.isComplete,
              pruned := false,
              parentIds := [Int.ofNat ai, Int.ofNat bi] }
          { acc with hier := acc.hier ++ [node],
                     seen := acc.seen ++ [bsStr],
                     newNodes := acc.newNodes + 1 }
    else acc
  | _, _ => acc

/-- One ordered node pair `(ai, bi)` of `tryLoopGluings`
(MerrellGrammar.cpp:509-577): the `maxRules` safety cap is checked at the
start of the pair only (the `goto done`); inside a pair every open half-edge
of A is tried against every open half-edge of B. -/
def tryPair (settings : GrammarSettings) (generation : Int)
    (acc : GlueAcc) (pq : Nat × Nat) : GlueAcc :=
  if acc.stopped then acc
  else if acc.newNodes ≥ settings.maxRules then { acc with stopped := true }
  else
    let A := (acc.hier.getD pq.1 default).graph
    let B := (acc.hier.getD pq.2 default).graph
    let openA := (A.halfEdges.filter (fun he => he.label.r == "open")).map
      (fun he => he.id)
    let openB := (B.halfEdges.filter (fun he => he.label.r == "open")).map
      (fun he => he.id)
    if openA.isEmpty || openB.isEmpty then acc
    else
      (openA.flatMap (fun hA => openB.map (fun hB => (hA, hB)))).foldl
        (glueStep generation pq.1 pq.2 A B) acc

/-- `MerrellGrammar::tryLoopGluings` (MerrellGrammar.cpp:486): collect the
nodes of this generation, seed the dedup set with the cached boundary
strings of every non-empty-boundary node in the whole hierarchy, then try
every ordered pair (self-gluing included). -/
def tryLoopGluings (st : GrammarState) (generation : Int) : GrammarState :=
  let genNodes := (List.range st.hierarchy.length).filter
    (fun i => (st.hierarchy.getD i default).generation == generation)
  if genNodes.isEmpty then st
  else
    let seen0 := st.hierarchy.foldl (fun s n =>
      if n.boundary.isEmpty then s else s ++ [n.boundary.toString]) []
    let acc0 : GlueAcc :=
      { hier := st.hierarchy, seen := seen0, newNodes := 0, stopped := false }
    let accF := (genNodes.flatMap (fun ai => genNodes.map (fun bi => (ai, bi)))).foldl
      (tryPair st.settings generation) acc0
    { st with hierarchy := accF.hier }

/-- The generation loop of `buildHierarchy` (MerrellGrammar.cpp:396-406):
run `tryLoopGluings` (branch gluing is an empty stub) for generations
`0, 1, ...` up to `maxHierarchyGen`, stopping once a generation produces no
new nodes. -/
def genLoop : GrammarState → Nat → Int → GrammarState
  | st, 0, _ => st
  | st, Nat.succ fuel, gen =>
    let st' := tryLoopGluings st gen
    let anyNew := st'.hierarchy.any (fun n => n.generation == gen + 1)
    if anyNew then genLoop st' fuel (gen + 1) else st'

/-- The boundary-cache pass at the end of `buildHierarchy`
(MerrellGrammar.cpp:409-417): nodes still carrying an empty boundary get the
outer boundary (falling back to the first face's boundary), and their
completeness flag is refreshed. -/
def cacheBoundaries (st : GrammarState) : GrammarState :=
  { st with hierarchy := (st.hierarchy.map (fun node =>
      if node.boundary.isEmpty ∧ ¬ node.graph.isEmpty then
        let b1 := if ¬ node.graph.faces.isEmpty then node.graph.outerBoundary
                  else node.boundary
        let b2 := if b1.isEmpty ∧ ¬ node.graph.faces.isEmpty then
            node.graph.boundaryOf (node.graph.faces.getD 0 default).id
          else b1
        { node with boundary := b2, isComplete := b2.isComplete }
      else node)) }

/-- `MerrellGrammar::buildHierarchy` (MerrellGrammar.cpp:376): clear, seed
generation 0, run the generation loop, cache outstanding boundaries. -/
def buildHierarchy (st : GrammarState) : GrammarState :=
  let st := { st with hierarchy := [] }
  let st := seedHierarchy st
  let st := genLoop st st.settings.maxHierarchyGen.toNat 0
  cacheBoundaries st

/-- `buildInterfaceGraph` (MerrellGrammar.cpp:630): minimal two-vertex
one-edge-pair interface graph. -/
def buildInterfaceGraph (v0x v0y v1x v1y : ℚ) (label : EdgeLabel) : MerrellGraph :=
  let p0 := MerrellGraph.addVertex {} (v0x, v0y)
  let p1 := p0.1.addVertex (v1x, v1y)
  (p1.1.addHalfEdgePair p0.2 p1.2 label).1

/-- `buildStarterRule` (MerrellGrammar.cpp:646): `∅ → primitive`. -/
def buildStarterRule (ruleId : Int) (node : HierarchyNode) : DPORule :=
  { id := ruleId,
    kind := RuleKind.Starter,
    name := "starter_" ++ (if node.graph.faces.isEmpty then "prim"
                           else (node.graph.faces.getD 0 default).label),
    isStarterRule := true,
    extractedAtGeneration := 0,
    L := node.graph,
    R := {},
    I := {},
    phi_L := {},
    phi_R := {},
    boundary_L := node.boundary,
    boundary_R := {} }

/-- `buildExpansionRule` (MerrellGrammar.cpp:681): `parent → child` with the
interface templated on the parent's first in-face open half-edge and `phi_L`
located through the first glued half-edge of L with a matching theta. -/
def buildExpansionRule (ruleId : Int) (parentNodeA childNode : HierarchyNode) :
    DPORule :=
  let rule0 : DPORule :=
    { id := ruleId,
      kind := RuleKind.LoopGlue,
      name := "expand_" ++ intRepr parentNodeA.id ++ "_to_" ++ intRepr childNode.id,
      extractedAtGeneration := childNode.generation,
      L := childNode.graph,
      R := parentNodeA.graph,
      boundary_L := childNode.boundary,
      boundary_R := parentNodeA.boundary }
  match rule0.R.halfEdges.find? (fun he =>
      (he.label.r == "open") && decide (he.face ≥ 0)) with
  | none => rule0
  | some openHE =>
    match rule0.R.vertex openHE.vertex, rule0.R.halfEdge openHE.twin with
    | some v0, some twin =>
      match rule0.R.vertex twin.vertex with
      | some v1 =>
        let rule1 := { rule0 with
          I := buildInterfaceGraph v0.pos.1 v0.pos.2 v1.pos.1 v1.pos.2 openHE.label,
          phi_R := { vertexMap := mapSet (mapSet [] 0 v0.id) 1 v1.id,
                     halfEdgeMap := mapSet (mapSet [] 0 openHE.id) 1 openHE.twin,
                     faceMap := [] } }
        match rule1.L.halfEdges.find? (fun he =>
            (he.label.r == "glued") && decide (he.face ≥ 0) &&
            (decide (absQ (he.label.theta - openHE.label.theta) < mkRat 1 1000) ||
             decide (absQ (absQ (he.label.theta - openHE.label.theta) - 2 * piQ)
               < mkRat 1 1000))) with
        | none => rule1
        | some gluedHE =>
          match rule1.L.halfEdge gluedHE.twin with
          | none => rule1
          | some ltwin =>
            match rule1.L.vertex gluedHE.vertex, rule1.L.vertex ltwin.vertex with
            | some lv0, some lv1 =>
              { rule1 with
                phi_L := { vertexMap := mapSet (mapSet [] 0 lv0.id) 1 lv1.id,
                           halfEdgeMap := mapSet (mapSet [] 0 gluedHE.id) 1 gluedHE.twin,
                           faceMap := [] } }
            | _, _ => rule1
      | none => rule0
    | _, _ => rule0

/-- `hasCompleteDescendant` (MerrellGrammar.cpp:754), fuelled: true when the
node or any node reachable through recorded parent links forward is
complete.  Children always carry larger indices than their parents in
pipeline-built hierarchies, so fuel `hier.length + 1` reproduces the C++
recursion. -/
def hasCompleteDescendant (hier : List HierarchyNode) :
    Nat → Nat → Bool
  | 0, _ => false
  | Nat.succ fuel, nodeIdx =>
    if nodeIdx ≥ hier.length then false
    else if (hier.getD nodeIdx default).isComplete then true
    else
      (List.range hier.length).any (fun i =>
        (hier.getD i default).parentIds.any (fun pid =>
          pid == Int.ofNat nodeIdx && hasCompleteDescendant hier fuel i))

/-- `MerrellGrammar::algorithm1_findGrammar` (MerrellGrammar.cpp:772):
starter rules for complete generation-0 nodes, expansion rules for complete
later nodes deduplicated by the `(∂R, ∂L)` string pair, then the pruning
pass. -/
def algorithm1 (st : GrammarState) : GrammarState :=
  let rules1 := st.hierarchy.foldl (fun rules node =>
      if node.generation == 0 && !node.pruned && node.isComplete then
        rules ++ [buildStarterRule (Int.ofNat rules.length) node]
      else rules) []
  let seen1 := rules1.map (fun r => (r.boundary_R.toString, r.boundary_L.toString))
  let step2 := (List.range st.hierarchy.length).foldl
    (fun (p : List DPORule × List (String × String)) i =>
      let childNode := st.hierarchy.getD i default
      if childNode.generation == 0 || childNode.pruned || !childNode.isComplete then p
      else
        childNode.parentIds.foldl
          (fun (p : List DPORule × List (String × String)) parentIdx =>
            if parentIdx < 0 ∨ parentIdx ≥ Int.ofNat st.hierarchy.length then p
            else
              let parentNode := st.hierarchy.getD parentIdx.toNat default
              if parentNode.pruned then p
              else
                let key := (parentNode.boundary.toString, childNode.boundary.toString)
                if p.2.contains key then p
                else (p.1 ++ [buildExpansionRule (Int.ofNat p.1.length) parentNode childNode],
                      p.2 ++ [key])) p)
    (rules1, seen1)
  let hier2 := (List.range st.hierarchy.length).map (fun i =>
      let node := st.hierarchy.getD i default
      if !node.pruned && !hasCompleteDescendant st.hierarchy (st.hierarchy.length + 1) i then
        { node with pruned := true }
      else node)
  { st with rules := step2.1, hierarchy := hier2 }

/-- `MerrellGrammar::extractGrammar` (MerrellGrammar.cpp:81): clear the rule
set and the error string; with no primitives record the error and return;
otherwise build the hierarchy and run Algorithm 1. -/
def extractGrammar (st : GrammarState) : GrammarState :=
  let st := { st with rules := [], lastError := "" }
  if st.primitives.isEmpty then
    { st with lastError := "No primitives. Call loadFromTiles() first." }
  else
    algorithm1 (buildHierarchy st)

/-! ### Invariant predicates and spec-side definitions -/

/-- The twin-symmetry invariant (spec §8): every half-edge whose `twin` field
is set references an existing half-edge — resolved through the linear-scan
accessor — whose `twin` field points back at it. -/
def twinSymOK (g : MerrellGraph) : Bool :=
  g.halfEdges.all (fun he =>
    he.twin == -1 ||
    (match g.halfEdge he.twin with
     | some mate => mate.twin == he.id
     | none => false))

/-- The cached-outgoing invariant (spec §3, MGVertex): every vertex whose
`outgoing_he` is set references a half-edge that still exists and starts at
that vertex. -/
def outgoingOK (g : MerrellGraph) : Bool :=
  g.vertices.all (fun v =>
    v.outgoing_he == -1 ||
    (match g.halfEdge v.outgoing_he with
     | some he => he.vertex == v.id
     | none => false))

/-- All half-edge ids of a graph are pairwise distinct. -/
def heIdsDistinct (g : MerrellGraph) : Bool :=
  g.halfEdges.map (fun he => he.id) |>.Nodup |> decide

/-- All vertex ids of a graph are pairwise distinct. -/
def vIdsDistinct (g : MerrellGraph) : Bool :=
  g.vertices.map (fun v => v.id) |>.Nodup |> decide

/-- No half-edge is recorded as its own twin, and ids are non-negative. -/
def heSane (g : MerrellGraph) : Bool :=
  g.halfEdges.all (fun he => decide (0 ≤ he.id) && !(he.twin == he.id))

/-- Spec-side element equality for claim C2 (written from the spec's words,
for comparison with the source's `elemEqual`): turns compare by turn type,
edges compare by edge LABEL; edge ids are not required to match. -/
def specElemEqual (a b : BoundaryElement) : Bool :=
  if a.is_turn ≠ b.is_turn then false
  else if a.is_turn then a.turn_type = b.turn_type
  else a.edge_label = b.edge_label

/-- Spec-side circular equality for claim C2 (written from the spec's
words): some cyclic rotation aligns the two strings with turn-type equality
at every turn position and edge-label equality at every edge position. -/
def specCircularlyEqual (s other : BoundaryString) : Bool :=
  if s.elements.length ≠ other.elements.length then false
  else if s.elements.isEmpty then true
  else
    let n := s.elements.length
    (List.range n).any (fun offset =>
      (List.range n).all (fun i =>
        specElemEqual (s.elements.getD ((i + offset) % n) default)
                      (other.elements.getD i default)))

/-- The circular-equality relation `isCircularlyEqual` actually decides:
equal lengths, and (unless empty) some rotation offset aligning the strings
under the source's `elemEqual` (turn types at turns, edge IDS at edges). -/
def CircEqById (s t : BoundaryString) : Prop :=
  s.elements.length = t.elements.length ∧
  (s.elements = [] ∨
    ∃ offset, offset < s.elements.length ∧
      ∀ i, i < s.elements.length →
        elemEqual (s.elements.getD ((i + offset) % s.elements.length) default)
                  (t.elements.getD i default) = true)

/-! ### Concrete instances used by the claims -/

/-- The `HStraight` vocabulary entry of the spec's concrete scenarios. -/
def hStraightDef : TileSocketDef :=
  { label := "HStraight", sockets := [(-1, 0), (1, 0)] }

/-- The `CornerBR` vocabulary entry of the spec's concrete scenarios. -/
def cornerBRDef : TileSocketDef :=
  { label := "CornerBR", sockets := [(1, 0), (0, 1)] }

/-- The disassembled `HStraight` primitive. -/
def hStraightPrim : MerrellGraph := buildPrimitive hStraightDef

/-- The disassembled `CornerBR` primitive. -/
def cornerBRPrim : MerrellGraph := buildPrimitive cornerBRDef

/-- Generation-0 hierarchy for the two-tile vocabulary of the concrete
scenarios (loadFromTiles followed by the generation-0 seeding). -/
def c8Seeded : GrammarState :=
  seedHierarchy (loadFromTiles {} [hStraightDef, cornerBRDef] [])

/-- Generation-0 hierarchy for the `HStraight`-only vocabulary with
`maxRules = 1` (claim C6's counterexample state). -/
def c6State : GrammarState :=
  seedHierarchy (loadFromTiles { settings := { maxRules := 1 } } [hStraightDef] [])

/-- A one-edge boundary string with edge id 0, label `open`. -/
def bsIdZero : BoundaryString :=
  { elements := [{ is_turn := false, edge_id := 0, edge_label := "open" }] }

/-- The same shape with edge id 1: circularly equal by the spec's relation,
unequal under the source's id comparison. -/
def bsIdOne : BoundaryString :=
  { elements := [{ is_turn := false, edge_id := 1, edge_label := "open" }] }

/-- A two-element boundary string (edge then positive turn) used to
instantiate claim C10. -/
def c10Demo : BoundaryString :=
  { elements := [{ is_turn := false, edge_id := 5, edge_label := "exterior" },
                 { is_turn := true, turn_type := TurnType.Positive }] }

/-- A two-pair graph with the first pair removed: its only half-edges carry
ids 2 and 3 although its half-edge vector has length 2, so appending another
graph at the length offset collides ids. -/
def c3GraphA : MerrellGraph :=
  (((MerrellGraph.addHalfEdgePair {} 0 1
        { l := "x", r := "open", theta := 0 }).1.addHalfEdgePair 0 1
        { l := "x", r := "open", theta := 0 }).1).removeHalfEdgePair 0

/-- A single-pair graph (half-edge ids 0 and 1). -/
def c3GraphB : MerrellGraph :=
  (MerrellGraph.addHalfEdgePair {} 0 1 { l := "x", r := "open", theta := 0 }).1

/-- A one-face, one-edge-pair graph whose `linkFaceLoop` call cached
`outgoing_he = 0` on vertex 0. -/
def c9Graph : MerrellGraph :=
  ((((MerrellGraph.addVertex {} (0, 0)).1.addVertex (1, 0)).1.addFace
      "f").1.addHalfEdgePair 0 1
      { l := "f", r := "open", theta := 0 }).1.linkFaceLoop 0 [0]

/-- Claim C7's scenario, step 1: a successful `loadFromTiles`
(`maxHierarchyGen = 0` keeps the later extraction to its starter rules). -/
def c7s1 : GrammarState :=
  loadFromTiles { settings := { maxHierarchyGen := 0 } } [hStraightDef] []

/-- Step 2: a successful extraction — the rule set is now non-empty. -/
def c7s2 : GrammarState := extractGrammar c7s1

/-- Step 3: a failed `loadFromTiles` with an empty vocabulary — primitives
are cleared, the previously extracted rules survive. -/
def c7s3 : GrammarState := loadFromTiles c7s2 [] []

/-- Step 4: `extractGrammar` with no primitives loaded. -/
def c7s4 : GrammarState := extractGrammar c7s3

/-- The combined graph of the concrete HStraight–CornerBR glue (spec §5's
scenario, claim C1): A appended at zero offset, B at offset ids. -/
def c1G0 : MerrellGraph := glueCombined hStraightPrim cornerBRPrim 6 2

/-- The seam half-edge of A in the combined graph. -/
def c1a0 : MGHalfEdge := (c1G0.halfEdge 6).getD default

/-- The seam half-edge of B (offset id space) in the combined graph. -/
def c1b0 : MGHalfEdge :=
  (c1G0.halfEdge (2 + Int.ofNat hStraightPrim.halfEdges.length)).getD default

/-- The twin of A's seam half-edge in the combined graph. -/
def c1at : MGHalfEdge := (c1G0.halfEdge c1a0.twin).getD default

/-- The twin of B's seam half-edge in the combined graph. -/
def c1bt : MGHalfEdge := (c1G0.halfEdge c1b0.twin).getD default

/-- The successful glue result of the concrete scenario. -/
def c1res : MerrellGraph := (loopGlue hStraightPrim cornerBRPrim 6 2).getD default

/-- Proof-support projection: the id and start vertex of the first half-edge
with a given id, the part of a lookup `outgoingOK` depends on. -/
def heVertProj (l : List MGHalfEdge) (j : Int) : Option (Int × Int) :=
  (l.find? (fun he => he.id == j)).map (fun he => (he.id, he.vertex))

/-- Proof-support invariant for the dedup argument (claim C5): the
accumulator's hierarchy extends `base` by nodes whose cached boundary
strings are all recorded in the seen-set, pairwise distinct, and distinct
from the cached string of every base node, all of which are also in the
seen-set. -/
def DedupInv (base : List HierarchyNode) (acc : GlueAcc) : Prop :=
  ∃ added, acc.hier = base ++ added ∧
    (∀ a ∈ added, a.boundary.toString ∈ acc.seen) ∧
    added.Pairwise (fun a b => a.boundary.toString ≠ b.boundary.toString) ∧
    (∀ a ∈ added, ∀ n ∈ base, a.boundary.toString ≠ n.boundary.toString) ∧
    (∀ n ∈ base, n.boundary.toString ∈ acc.seen)

/-- Proof-support invariant for the safety-cap bound (claim C6): the
accumulator extends `base`, its node surplus equals `newNodes`, and
`newNodes` stays below the worst case of one almost-exhausted cap plus one
uncapped ordered pair of at most `K × K` gluings. -/
def CapInv (base : List HierarchyNode) (maxR : Int) (K : Nat) (acc : GlueAcc) : Prop :=
  (∃ t, acc.hier = base ++ t) ∧
  (acc.hier.length : Int) = (base.length : Int) + acc.newNodes ∧
  0 ≤ acc.newNodes ∧
  acc.newNodes ≤ max (maxR - 1) 0 + ((K * K : Nat) : Int)

/-- Proof-support projection (claim C3): the id and twin fields of each
half-edge, the only data `twinSymOK` reads. -/
def twinPairs (l : List MGHalfEdge) : List (Int × Int) :=
  l.map (fun he => (he.id, he.twin))

/-- `twinSymOK` rephrased on the projected id/twin pairs. -/
def twinsOKpairs (l : List (Int × Int)) : Bool :=
  l.all (fun p => p.2 == -1 ||
    (match l.find? (fun q => q.1 == p.2) with
     | some q => q.2 == p.1
     | none => false))

/-! ### Helper lemmas -/

theorem list_all_congr {α : Type} (xs : List α) (p q : α → Bool)
    (hpq : ∀ x ∈ xs, p x = q x) : xs.all p = xs.all q := by
  induction xs with
  | nil => rfl
  | cons b bs ih =>
    have hb : p b = q b := hpq b (List.mem_cons_self b bs)
    have hrest : bs.all p = bs.all q :=
      ih (fun y hy => hpq y (List.mem_cons_of_mem b hy))
    simp only [List.all_cons, hb, hrest]

theorem foldl_pres {α β : Type} (P : β → Prop) (f : β → α → β)
    (h : ∀ b a, P b → P (f b a)) :
    ∀ (l : List α) (b : β), P b → P (l.foldl f b) := by
  intro l
  induction l with
  | nil => intro b hb; exact hb
  | cons a t ih => intro b hb; exact ih (f b a) (h b a hb)

theorem find?_filter_keep {α : Type} (l : List α) (p q : α → Bool)
    (h : ∀ a, p a = true → q a = true) :
    (l.filter q).find? p = l.find? p := by
  induction l with
  | nil => rfl
  | cons a t ih =>
    by_cases hp : p a = true
    · rw [List.filter_cons_of_pos (h a hp)]
      simp only [List.find?_cons, hp]
    · have hp' : p a = false := by simpa using hp
      by_cases hq : q a = true
      · rw [List.filter_cons_of_pos hq]
        simp only [List.find?_cons, hp']
        exact ih
      · rw [List.filter_cons_of_neg (by simpa using hq)]
        simp only [List.find?_cons, hp']
        exact ih

theorem heVertProj_updFirstHE (l : List MGHalfEdge) (i : Int)
    (f : MGHalfEdge → MGHalfEdge) (j : Int)
    (hid : ∀ he, (f he).id = he.id)
    (hv : ∀ he, (f he).vertex = he.vertex) :
    heVertProj (updFirstHE l i f) j = heVertProj l j := by
  induction l with
  | nil => rfl
  | cons he t ih =>
    unfold updFirstHE heVertProj
    by_cases hi : he.id = i
    · rw [if_pos hi]
      by_cases hj : (he.id == j) = true
      · simp only [List.find?_cons, hid, hj]
        simp [hid, hv]
      · have hj' : (he.id == j) = false := by simpa using hj
        simp only [List.find?_cons, hid, hj']
    · rw [if_neg hi]
      by_cases hj : (he.id == j) = true
      · simp only [List.find?_cons, hj]
      · have hj' : (he.id == j) = false := by simpa using hj
        simp only [List.find?_cons, hj']
        exact ih

theorem heVertProj_map_vertex (l : List MGHalfEdge) (fromId toId : Int) (j : Int) :
    heVertProj (l.map (fun he =>
        if he.vertex = fromId then { he with vertex := toId } else he)) j =
      (heVertProj l j).map (fun p => if p.2 = fromId then (p.1, toId) else p) := by
  induction l with
  | nil => rfl
  | cons he t ih =>
    unfold heVertProj
    simp only [List.map_cons]
    have hid : (if he.vertex = fromId then { he with vertex := toId } else he).id
        = he.id := by
      by_cases hv : he.vertex = fromId <;> simp [hv]
    by_cases hj : (he.id == j) = true
    · simp only [List.find?_cons, hid, hj]
      by_cases hv : he.vertex = fromId <;> simp [hv]
    · have hj' : (he.id == j) = false := by simpa using hj
      simp only [List.find?_cons, hid, hj']
      exact ih

theorem all_updFirstV_pres (l : List MGVertex) (i : Int)
    (f : MGVertex → MGVertex) (p : MGVertex → Bool)
    (hall : l.all p = true)
    (hf : ∀ v, p v = true → v.id = i → p (f v) = true) :
    (updFirstV l i f).all p = true := by
  induction l with
  | nil => rfl
  | cons v t ih =>
    rw [List.all_cons, Bool.and_eq_true] at hall
    unfold updFirstV
    by_cases hi : v.id = i
    · rw [if_pos hi, List.all_cons, Bool.and_eq_true]
      exact ⟨hf v hall.1 hi, hall.2⟩
    · rw [if_neg hi, List.all_cons, Bool.and_eq_true]
      exact ⟨hall.1, ih hall.2⟩

theorem outgoingOK_via_proj (g : MerrellGraph) :
    outgoingOK g = g.vertices.all (fun v =>
      v.outgoing_he == -1 ||
      (match heVertProj g.halfEdges v.outgoing_he with
       | some p => p.2 == v.id
       | none => false)) := by
  unfold outgoingOK heVertProj MerrellGraph.halfEdge
  apply list_all_congr
  intro v _
  cases g.halfEdges.find? (fun he => he.id == v.outgoing_he) <;> rfl

theorem outgoingOK_updHE (g : MerrellGraph) (i : Int) (f : MGHalfEdge → MGHalfEdge)
    (hid : ∀ he, (f he).id = he.id) (hv : ∀ he, (f he).vertex = he.vertex)
    (hok : outgoingOK g = true) :
    outgoingOK { g with halfEdges := (updFirstHE g.halfEdges i f) } = true := by
  rw [outgoingOK_via_proj] at hok ⊢
  rw [list_all_congr _ _ _
    (fun v _ => by rw [heVertProj_updFirstHE g.halfEdges i f v.outgoing_he hid hv])]
  exact hok

theorem outgoingOK_setOutgoing (g : MerrellGraph) (heId : Int) (he : MGHalfEdge)
    (hfind : g.halfEdge heId = some he)
    (hok : outgoingOK g = true) :
    outgoingOK { g with vertices := (updFirstV g.vertices he.vertex
      (fun v => { v with outgoing_he := heId })) } = true := by
  rw [outgoingOK_via_proj] at hok ⊢
  apply all_updFirstV_pres _ _ _ _ hok
  intro v _ hvid
  by_cases hneg : heId = -1
  · simp [hneg]
  · have hid : he.id = heId := by
      have := List.find?_some hfind
      simpa using this
    simp only [MerrellGraph.halfEdge] at hfind
    unfold heVertProj
    simp only [hfind]
    simp [hvid, hneg]

theorem removePatch_vertices (g : MerrellGraph) (i : Int) :
    (removePatch g i).vertices = g.vertices := by
  unfold removePatch
  cases g.halfEdge i with
  | none => rfl
  | some h =>
    by_cases h1 : h.prev ≥ 0 <;> by_cases h2 : h.next ≥ 0 <;>
      simp only [h1, h2, if_true, if_false, ite_true, ite_false]

theorem removePatch_proj (g : MerrellGraph) (i j : Int) :
    heVertProj (removePatch g i).halfEdges j = heVertProj g.halfEdges j := by
  unfold removePatch
  cases g.halfEdge i with
  | none => rfl
  | some h =>
    by_cases h1 : h.prev ≥ 0 <;> by_cases h2 : h.next ≥ 0 <;>
        simp only [h1, h2, if_true, if_false, ite_true, ite_false]
    · rw [heVertProj_updFirstHE _ _ _ _
          (fun he => by by_cases hc : he.prev = i <;> simp [hc])
          (fun he => by by_cases hc : he.prev = i <;> simp [hc]),
        heVertProj_updFirstHE _ _ _ _
          (fun he => by by_cases hc : he.next = i <;> simp [hc])
          (fun he => by by_cases hc : he.next = i <;> simp [hc])]
    · rw [heVertProj_updFirstHE _ _ _ _
          (fun he => by by_cases hc : he.next = i <;> simp [hc])
          (fun he => by by_cases hc : he.next = i <;> simp [hc])]
    · rw [heVertProj_updFirstHE _ _ _ _
          (fun he => by by_cases hc : he.prev = i <;> simp [hc])
          (fun he => by by_cases hc : he.prev = i <;> simp [hc])]

theorem outgoingOK_linkFaceLoop (g : MerrellGraph) (faceId : Int) (heIds : List Int)
    (hok : outgoingOK g = true) :
    outgoingOK (g.linkFaceLoop faceId heIds) = true := by
  unfold MerrellGraph.linkFaceLoop
  by_cases hemp : heIds.isEmpty = true
  · rw [if_pos hemp]; exact hok
  · rw [if_neg hemp]
    cases hface : g.face faceId with
    | none => exact hok
    | some f =>
      apply foldl_pres (fun gg => outgoingOK gg = true)
      · intro b a hb
        dsimp only
        split
        · exact hb
        · next he hfind =>
          split
          · exact hb
          · next v hv =>
            split
            · exact outgoingOK_setOutgoing b a he hfind hb
            · exact hb
      · apply foldl_pres (fun gg => outgoingOK gg = true)
        · intro b i hb
          dsimp only
          split <;>
            first
              | exact hb
              | exact outgoingOK_updHE b _ _ (fun he => rfl) (fun he => rfl) hb
        · exact hok

theorem outgoingOK_mergeVertices (g : MerrellGraph) (fromId toId : Int)
    (hok : outgoingOK g = true) :
    outgoingOK (g.mergeVertices fromId toId) = true := by
  unfold MerrellGraph.mergeVertices
  by_cases heq : fromId = toId
  · rw [if_pos heq]; exact hok
  · rw [if_neg heq]
    rw [outgoingOK_via_proj] at hok ⊢
    rw [List.all_eq_true] at hok ⊢
    intro v hv
    have hvmem : v ∈ g.vertices := List.mem_of_mem_filter hv
    have hvid : v.id ≠ fromId := by
      have := List.of_mem_filter hv
      simpa using this
    have hp := hok v hvmem
    dsimp only
    rw [heVertProj_map_vertex]
    rw [Bool.or_eq_true] at hp ⊢
    cases hp with
    | inl h => exact Or.inl h
    | inr h =>
      right
      cases hfp : heVertProj g.halfEdges v.outgoing_he with
      | none => rw [hfp] at h; simp at h
      | some p =>
        rw [hfp] at h
        have hpv : p.2 = v.id := by simpa using h
        have hnf : ¬ p.2 = fromId := by rw [hpv]; exact hvid
        simp [hnf, hpv]
        rw [if_neg hvid]
        exact hpv

theorem outgoingOK_removeHEP (g : MerrellGraph) (heId : Int)
    (hrem : ∀ v ∈ g.vertices, v.outgoing_he ≠ heId ∧
      ((g.halfEdge heId).isSome = true →
        v.outgoing_he ≠ ((g.halfEdge heId).getD default).twin))
    (hok : outgoingOK g = true) :
    outgoingOK (g.removeHalfEdgePair heId) = true := by
  unfold MerrellGraph.removeHalfEdgePair
  cases hfind : g.halfEdge heId with
  | none => exact hok
  | some he =>
    have hG2v : (if he.twin ≠ -1 then removePatch (removePatch g heId) he.twin
        else removePatch g heId).vertices = g.vertices := by
      by_cases ht : he.twin ≠ -1
      · rw [if_pos ht, removePatch_vertices, removePatch_vertices]
      · rw [if_neg ht, removePatch_vertices]
    have hG2p : ∀ j, heVertProj (if he.twin ≠ -1 then
          removePatch (removePatch g heId) he.twin
        else removePatch g heId).halfEdges j = heVertProj g.halfEdges j := by
      intro j
      by_cases ht : he.twin ≠ -1
      · rw [if_pos ht, removePatch_proj, removePatch_proj]
      · rw [if_neg ht, removePatch_proj]
    rw [outgoingOK_via_proj]
    rw [outgoingOK_via_proj, List.all_eq_true] at hok
    dsimp only
    rw [List.all_eq_true]
    intro v hv
    rw [hG2v] at hv
    have hp := hok v hv
    have hr := hrem v hv
    rw [hfind] at hr
    have hr1 : v.outgoing_he ≠ heId := hr.1
    have hr2 : v.outgoing_he ≠ he.twin := by
      have := hr.2 (by rfl)
      simpa using this
    rw [Bool.or_eq_true] at hp ⊢
    cases hp with
    | inl h => exact Or.inl h
    | inr h =>
      right
      unfold heVertProj
      rw [find?_filter_keep _ _ _ (fun a ha => by
        have haj : a.id = v.outgoing_he := by simpa using ha
        have h1 : (a.id == heId) = false := by
          rw [haj]; simpa using hr1
        have h2 : (a.id == he.twin) = false := by
          rw [haj]; simpa using hr2
        rw [h1, h2]; rfl)]
      have := hG2p v.outgoing_he
      unfold heVertProj at this
      rw [this]
      unfold heVertProj at h
      exact h

theorem absQ_eq_abs (q : ℚ) : absQ q = |q| := by
  unfold absQ
  by_cases h : q < 0
  · rw [if_pos h, abs_of_neg h]
  · rw [if_neg h, abs_of_nonneg (not_lt.mp h)]

theorem piQ_eq : piQ = 355 / 113 := by
  unfold piQ
  rw [Rat.mkRat_eq_div]
  norm_num

theorem comp_iff (ta tb : ℚ) (ha0 : 0 ≤ ta) (ha2 : ta < 2 * piQ)
    (hb0 : 0 ≤ tb) (hb2 : tb < 2 * piQ) :
    (absQ (absQ (ta - tb) - piQ) < mkRat 1 10000 ∨
      absQ (absQ (ta - tb) - piQ - 2 * piQ) < mkRat 1 10000) ↔
      absQ (absQ (ta - tb) - piQ) < mkRat 1 10000 := by
  have heps : (mkRat 1 10000 : ℚ) = 1 / 10000 := by
    rw [Rat.mkRat_eq_div]; norm_num
  constructor
  · rintro (h | h)
    · exact h
    · exfalso
      rw [absQ_eq_abs, absQ_eq_abs, heps] at h
      have hd : |ta - tb| < 2 * piQ := by
        rw [abs_sub_lt_iff]
        constructor <;> linarith
      have hd0 : 0 ≤ |ta - tb| := abs_nonneg _
      rw [abs_lt] at h
      rw [piQ_eq] at h hd
      norm_num at h hd
      linarith
  · exact Or.inl

theorem glueStep_hier (generation : Int) (ai bi : Nat) (A B : MerrellGraph)
    (acc : GlueAcc) (p : Int × Int) :
    ∃ t, (glueStep generation ai bi A B acc p).hier = acc.hier ++ t := by
  unfold glueStep
  split
  all_goals try exact ⟨[], (List.append_nil _).symm⟩
  dsimp only
  split
  all_goals try exact ⟨[], (List.append_nil _).symm⟩
  split
  all_goals try exact ⟨[], (List.append_nil _).symm⟩
  all_goals split
  all_goals split
  all_goals try exact ⟨[], (List.append_nil _).symm⟩
  all_goals exact ⟨_, rfl⟩

theorem foldl_hier_append {α : Type} (f : GlueAcc → α → GlueAcc)
    (hf : ∀ acc x, ∃ t, (f acc x).hier = acc.hier ++ t) :
    ∀ (l : List α) (acc : GlueAcc), ∃ t, (l.foldl f acc).hier = acc.hier ++ t := by
  intro l
  induction l with
  | nil => intro acc; exact ⟨[], (List.append_nil _).symm⟩
  | cons x xs ih =>
    intro acc
    obtain ⟨t1, h1⟩ := hf acc x
    obtain ⟨t2, h2⟩ := ih (f acc x)
    exact ⟨t1 ++ t2, by rw [List.foldl_cons, h2, h1, List.append_assoc]⟩

theorem tryPair_hier (settings : GrammarSettings) (generation : Int)
    (acc : GlueAcc) (pq : Nat × Nat) :
    ∃ t, (tryPair settings generation acc pq).hier = acc.hier ++ t := by
  unfold tryPair
  split
  · exact ⟨[], (List.append_nil _).symm⟩
  split
  · exact ⟨[], (List.append_nil _).symm⟩
  dsimp only
  split
  · exact ⟨[], (List.append_nil _).symm⟩
  exact foldl_hier_append _ (glueStep_hier generation pq.1 pq.2 _ _) _ acc

theorem tryLoopGluings_append (st : GrammarState) (gen : Int) :
    ∃ added, (tryLoopGluings st gen).hierarchy = st.hierarchy ++ added := by
  unfold tryLoopGluings
  dsimp only
  split
  · exact ⟨[], (List.append_nil _).symm⟩
  · exact foldl_hier_append _ (tryPair_hier st.settings gen) _ _

theorem glueStep_cases (generation : Int) (ai bi : Nat) (A B : MerrellGraph)
    (acc : GlueAcc) (p : Int × Int) :
    glueStep generation ai bi A B acc p = acc ∨
    ∃ node : HierarchyNode,
      (glueStep generation ai bi A B acc p).hier = acc.hier ++ [node] ∧
      (glueStep generation ai bi A B acc p).seen = acc.seen ++ [node.boundary.toString] ∧
      acc.seen.contains node.boundary.toString = false := by
  unfold glueStep
  split
  all_goals try exact Or.inl rfl
  dsimp only
  split
  all_goals try exact Or.inl rfl
  split
  all_goals try exact Or.inl rfl
  all_goals split
  all_goals split
  all_goals try exact Or.inl rfl
  all_goals next h => exact Or.inr ⟨_, rfl, rfl, by simpa using h⟩

theorem not_mem_of_contains_false (l : List String) (s : String)
    (h : l.contains s = false) : ¬ s ∈ l := by
  intro hmem
  simp at h
  exact h hmem

theorem glueStep_dedup (base : List HierarchyNode) (generation : Int)
    (ai bi : Nat) (A B : MerrellGraph) :
    ∀ (acc : GlueAcc) (p : Int × Int), DedupInv base acc →
      DedupInv base (glueStep generation ai bi A B acc p) := by
  intro acc p hinv
  rcases glueStep_cases generation ai bi A B acc p with heq | ⟨node, hh, hs, hc⟩
  · rw [heq]; exact hinv
  · obtain ⟨added, h1, h2, h3, h4, h5⟩ := hinv
    have hnotmem : ¬ node.boundary.toString ∈ acc.seen :=
      not_mem_of_contains_false _ _ hc
    refine ⟨added ++ [node], ?_, ?_, ?_, ?_, ?_⟩
    · rw [hh, h1, List.append_assoc]
    · intro a ha
      rw [hs]
      rcases List.mem_append.mp ha with h | h
      · exact List.mem_append_left _ (h2 a h)
      · rw [List.mem_singleton.mp h]
        exact List.mem_append_right _ (List.mem_singleton.mpr rfl)
    · rw [List.pairwise_append]
      refine ⟨h3, List.pairwise_singleton _ _, ?_⟩
      intro a ha b hb
      have hb' := List.mem_singleton.mp hb
      subst hb'
      intro heqs
      apply hnotmem
      rw [← heqs]
      exact h2 a ha
    · intro a ha n hn
      rcases List.mem_append.mp ha with h | h
      · exact h4 a h n hn
      · have h' := List.mem_singleton.mp h
        subst h'
        intro heqs
        apply hnotmem
        rw [heqs]
        exact h5 n hn
    · intro n hn
      rw [hs]
      exact List.mem_append_left _ (h5 n hn)

theorem tryPair_dedup (base : List HierarchyNode) (settings : GrammarSettings)
    (generation : Int) :
    ∀ (acc : GlueAcc) (pq : Nat × Nat), DedupInv base acc →
      DedupInv base (tryPair settings generation acc pq) := by
  intro acc pq hinv
  unfold tryPair
  split
  · exact hinv
  split
  · obtain ⟨added, h1, h2, h3, h4, h5⟩ := hinv
    exact ⟨added, h1, h2, h3, h4, h5⟩
  dsimp only
  split
  · exact hinv
  · exact foldl_pres (DedupInv base) _
      (glueStep_dedup base generation pq.1 pq.2 _ _) _ acc hinv

theorem seen_fold_mono (l : List HierarchyNode) :
    ∀ (s0 : List String) (s : String), s ∈ s0 →
      s ∈ l.foldl (fun s n => if n.boundary.isEmpty then s
        else s ++ [n.boundary.toString]) s0 := by
  induction l with
  | nil => intro s0 s h; exact h
  | cons x xs ih =>
    intro s0 s h
    rw [List.foldl_cons]
    apply ih
    split
    · exact h
    · exact List.mem_append_left _ h

theorem seen_fold_mem (l : List HierarchyNode) :
    ∀ (s0 : List String) (n : HierarchyNode), n ∈ l → n.boundary.isEmpty = false →
      n.boundary.toString ∈ l.foldl (fun s m => if m.boundary.isEmpty then s
        else s ++ [m.boundary.toString]) s0 := by
  induction l with
  | nil => intro s0 n h _; cases h
  | cons x xs ih =>
    intro s0 n hmem hne
    rw [List.foldl_cons]
    rcases List.mem_cons.mp hmem with h | h
    · subst h
      apply seen_fold_mono
      rw [hne, if_neg (fun hcon : (false = true) => Bool.noConfusion hcon)]
      exact List.mem_append_right _ (List.mem_singleton.mpr rfl)
    · exact ih _ n h hne

theorem foldl_pres_mem {α β : Type} (P : β → Prop) (f : β → α → β) :
    ∀ (l : List α), (∀ b a, a ∈ l → P b → P (f b a)) → ∀ b, P b → P (l.foldl f b) := by
  intro l
  induction l with
  | nil => intro _ b h; exact h
  | cons x xs ih =>
    intro hstep b hb
    rw [List.foldl_cons]
    exact ih (fun b a ha => hstep b a (List.mem_cons_of_mem x ha)) (f b x)
      (hstep b x (List.mem_cons_self x xs) hb)

theorem length_pairs {α β : Type} (l1 : List α) (l2 : List β) :
    (l1.flatMap (fun a => l2.map (fun b => (a, b)))).length =
      l1.length * l2.length := by
  induction l1 with
  | nil => simp
  | cons x xs ih =>
    rw [List.flatMap_cons, List.length_append, List.length_map, ih, List.length_cons]
    ring

theorem glueStep_count (generation : Int) (ai bi : Nat) (A B : MerrellGraph)
    (acc : GlueAcc) (p : Int × Int) :
    glueStep generation ai bi A B acc p = acc ∨
    ((glueStep generation ai bi A B acc p).hier.length = acc.hier.length + 1 ∧
     (glueStep generation ai bi A B acc p).newNodes = acc.newNodes + 1) := by
  unfold glueStep
  split
  all_goals try exact Or.inl rfl
  dsimp only
  split
  all_goals try exact Or.inl rfl
  split
  all_goals try exact Or.inl rfl
  all_goals split
  all_goals split
  all_goals try exact Or.inl rfl
  all_goals exact Or.inr ⟨by simp, rfl⟩

theorem foldl_glueStep_props (generation : Int) (ai bi : Nat) (A B : MerrellGraph) :
    ∀ (l : List (Int × Int)) (acc : GlueAcc),
      acc.newNodes ≤ (l.foldl (glueStep generation ai bi A B) acc).newNodes ∧
      (l.foldl (glueStep generation ai bi A B) acc).newNodes ≤
        acc.newNodes + (l.length : Int) ∧
      ((l.foldl (glueStep generation ai bi A B) acc).hier.length : Int) -
        (l.foldl (glueStep generation ai bi A B) acc).newNodes =
        (acc.hier.length : Int) - acc.newNodes := by
  intro l
  induction l with
  | nil => intro acc; exact ⟨le_refl _, by simp, rfl⟩
  | cons x xs ih =>
    intro acc
    rw [List.foldl_cons]
    obtain ⟨ha, hb, hc⟩ := ih (glueStep generation ai bi A B acc x)
    rcases glueStep_count generation ai bi A B acc x with heq | ⟨h1, h2⟩
    · rw [heq] at ha hb hc
      rw [heq]
      simp only [List.length_cons]
      refine ⟨ha, ?_, hc⟩
      omega
    · simp only [List.length_cons]
      refine ⟨?_, ?_, ?_⟩ <;> omega

theorem tryPair_cap_core (base : List HierarchyNode) (maxR : Int) (K : Nat)
    (acc : GlueAcc) (l : List (Int × Int)) (generation : Int) (ai bi : Nat)
    (A B : MerrellGraph) (hlen : l.length ≤ K * K)
    (hstart : acc.newNodes < maxR) (hinv : CapInv base maxR K acc) :
    CapInv base maxR K (l.foldl (glueStep generation ai bi A B) acc) := by
  obtain ⟨⟨t0, ht0⟩, hdiff, hpos, hbound⟩ := hinv
  obtain ⟨hlow, hup, hd⟩ := foldl_glueStep_props generation ai bi A B l acc
  obtain ⟨t1, ht1⟩ := foldl_hier_append _ (glueStep_hier generation ai bi A B) l acc
  have hlen' : ((l.length : Nat) : Int) ≤ ((K * K : Nat) : Int) := by
    exact_mod_cast hlen
  refine ⟨⟨t0 ++ t1, by rw [ht1, ht0, List.append_assoc]⟩, ?_, ?_, ?_⟩ <;> omega

theorem pair_mem_bound (n : Nat) (f : Nat → Bool) (pq : Nat × Nat)
    (h : pq ∈ ((List.range n).filter f).flatMap
      (fun ai => ((List.range n).filter f).map (fun bi => (ai, bi)))) :
    pq.1 < n ∧ pq.2 < n := by
  obtain ⟨ai, hai, h2⟩ := List.mem_flatMap.mp h
  obtain ⟨bi, hbi, heq⟩ := List.mem_map.mp h2
  have h1 := List.mem_range.mp (List.mem_filter.mp hai).1
  have h3 := List.mem_range.mp (List.mem_filter.mp hbi).1
  subst heq
  exact ⟨h1, h3⟩

theorem cap_conclude (base : List HierarchyNode) (maxR : Int) (K : Nat)
    (F : GlueAcc) (h : CapInv base maxR K F) :
    (F.hier.length : Int) ≤ (base.length : Int) + max (maxR - 1) 0 +
      ((K * K : Nat) : Int) := by
  obtain ⟨⟨t, ht⟩, hdiff, hpos, hbound⟩ := h
  omega

theorem tryPair_cap (base : List HierarchyNode) (settings : GrammarSettings)
    (generation : Int) (K : Nat)
    (hK : ∀ n ∈ base, (n.graph.halfEdges.filter
        (fun he => he.label.r == "open")).length ≤ K) :
    ∀ (acc : GlueAcc) (pq : Nat × Nat), pq.1 < base.length → pq.2 < base.length →
      CapInv base settings.maxRules K acc →
      CapInv base settings.maxRules K (tryPair settings generation acc pq) := by
  intro acc pq hp1 hp2 hinv
  unfold tryPair
  split
  · exact hinv
  split
  · obtain ⟨⟨t, ht⟩, h1, h2, h3⟩ := hinv
    exact ⟨⟨t, ht⟩, h1, h2, h3⟩
  next hstart =>
    dsimp only
    split
    · exact hinv
    · have hgA : (acc.hier.getD pq.1 default) = base.getD pq.1 default := by
        obtain ⟨t0, ht0⟩ := hinv.1
        rw [ht0]
        exact List.getD_append base t0 default pq.1 hp1
      have hgB : (acc.hier.getD pq.2 default) = base.getD pq.2 default := by
        obtain ⟨t0, ht0⟩ := hinv.1
        rw [ht0]
        exact List.getD_append base t0 default pq.2 hp2
      refine tryPair_cap_core base settings.maxRules K acc _ generation pq.1 pq.2 _ _
        ?_ (by omega) hinv
      rw [length_pairs, List.length_map, List.length_map]
      apply Nat.mul_le_mul
      · rw [hgA]
        apply hK
        rw [List.getD_eq_getElem base default hp1]
        exact List.getElem_mem hp1
      · rw [hgB]
        apply hK
        rw [List.getD_eq_getElem base default hp2]
        exact List.getElem_mem hp2

theorem updFirstHE_length (l : List MGHalfEdge) (i : Int)
    (f : MGHalfEdge → MGHalfEdge) : (updFirstHE l i f).length = l.length := by
  induction l with
  | nil => rfl
  | cons he rest ih =>
    simp only [updFirstHE]
    split
    · simp
    · simp [ih]

theorem length_filter_not {α : Type} (l : List α) (p : α → Bool) :
    (l.filter (fun a => !(p a))).length + (l.filter p).length = l.length := by
  induction l with
  | nil => rfl
  | cons x xs ih =>
    by_cases h : p x = true
    · simp [List.filter_cons, h]
      omega
    · have h' : p x = false := by
        cases hpx : p x
        · rfl
        · exact absurd hpx h
      simp [List.filter_cons, h']
      omega

theorem count_filter_ne (l : List MGVertex) (i j : Int) (hij : i ≠ j) :
    ((l.filter (fun v => !(v.id == j))).filter (fun v => v.id == i)).length =
      (l.filter (fun v => v.id == i)).length := by
  rw [List.filter_filter]
  congr 1
  apply List.filter_congr
  intro v _
  by_cases hvi : v.id = i
  · have hvj : ¬ v.id = j := by rw [hvi]; exact hij
    simp [hvi, hvj, hij]
  · simp [hvi]

theorem mergeVertices_vertices_eq (g : MerrellGraph) (f t : Int) (hne : f ≠ t) :
    (g.mergeVertices f t).vertices = g.vertices.filter (fun v => !(v.id == f)) := by
  unfold MerrellGraph.mergeVertices
  rw [if_neg hne]

theorem mergeVertices_len (g : MerrellGraph) (f t : Int) (hne : f ≠ t)
    (hcount : (g.vertices.filter (fun v => v.id == f)).length = 1) :
    (g.mergeVertices f t).vertices.length + 1 = g.vertices.length := by
  rw [mergeVertices_vertices_eq g f t hne]
  have h := length_filter_not g.vertices (fun v => v.id == f)
  omega

theorem mergeVertices_he_len (g : MerrellGraph) (f t : Int) :
    (g.mergeVertices f t).halfEdges.length = g.halfEdges.length := by
  unfold MerrellGraph.mergeVertices
  split
  · rfl
  · simp

theorem glueCombined_vertices_len (A B : MerrellGraph) (a b : Int) :
    (glueCombined A B a b).vertices.length =
      A.vertices.length + B.vertices.length := by
  unfold glueCombined appendGraph appendGraphPos
  dsimp only
  split <;> simp

theorem glueCombined_halfEdges_len (A B : MerrellGraph) (a b : Int) :
    (glueCombined A B a b).halfEdges.length =
      A.halfEdges.length + B.halfEdges.length := by
  unfold glueCombined appendGraph appendGraphPos
  dsimp only
  split <;> simp

theorem loopGlue_lengths (A B : MerrellGraph) (hA hB : Int)
    (a0 b0 at0 bt0 : MGHalfEdge) (g : MerrellGraph)
    (ha0 : (glueCombined A B hA hB).halfEdge hA = some a0)
    (hb0 : (glueCombined A B hA hB).halfEdge
      (hB + Int.ofNat A.halfEdges.length) = some b0)
    (hat : (glueCombined A B hA hB).halfEdge a0.twin = some at0)
    (hbt : (glueCombined A B hA hB).halfEdge b0.twin = some bt0)
    (hne1 : b0.vertex ≠ at0.vertex) (hne2 : bt0.vertex ≠ a0.vertex)
    (hneBB : bt0.vertex ≠ b0.vertex)
    (hcount1 : ((glueCombined A B hA hB).vertices.filter
      (fun v => v.id == b0.vertex)).length = 1)
    (hcount2 : ((glueCombined A B hA hB).vertices.filter
      (fun v => v.id == bt0.vertex)).length = 1)
    (hsucc : loopGlue A B hA hB = some g) :
    g.vertices.length + 2 = A.vertices.length + B.vertices.length ∧
    g.halfEdges.length = A.halfEdges.length + B.halfEdges.length := by
  have hm1 := mergeVertices_len (glueCombined A B hA hB) b0.vertex at0.vertex
    hne1 hcount1
  have hcount2' : (((glueCombined A B hA hB).mergeVertices b0.vertex
      at0.vertex).vertices.filter (fun v => v.id == bt0.vertex)).length = 1 := by
    rw [mergeVertices_vertices_eq _ _ _ hne1, count_filter_ne _ _ _ hneBB]
    exact hcount2
  have hm2 := mergeVertices_len ((glueCombined A B hA hB).mergeVertices b0.vertex
    at0.vertex) bt0.vertex a0.vertex hne2 hcount2'
  have hhe1 := mergeVertices_he_len (glueCombined A B hA hB) b0.vertex at0.vertex
  have hhe2 := mergeVertices_he_len ((glueCombined A B hA hB).mergeVertices
    b0.vertex at0.vertex) bt0.vertex a0.vertex
  have hvc := glueCombined_vertices_len A B hA hB
  have hhc := glueCombined_halfEdges_len A B hA hB
  unfold loopGlue at hsucc
  try dsimp only at hsucc
  rw [ha0, hb0] at hsucc
  try dsimp only at hsucc
  rw [hat, hbt] at hsucc
  try dsimp only at hsucc
  split at hsucc
  all_goals try exact Option.noConfusion hsucc
  try dsimp only at hsucc
  split at hsucc
  all_goals try exact Option.noConfusion hsucc
  try dsimp only at hsucc
  split at hsucc
  all_goals try exact Option.noConfusion hsucc
  have hg := Option.some.inj hsucc
  subst hg
  constructor
  · repeat' split
    all_goals (dsimp only; omega)
  · repeat' split
    all_goals (simp only [updFirstHE_length]; omega)

theorem all_map_gen {α β : Type} (l : List α) (f : α → β) (p : β → Bool) :
    (l.map f).all p = l.all (fun a => p (f a)) := by
  induction l with
  | nil => rfl
  | cons x xs ih => simp [List.all_cons, ih]

theorem twinSymOK_eq_pairs (g : MerrellGraph) :
    twinSymOK g = twinsOKpairs (twinPairs g.halfEdges) := by
  unfold twinSymOK twinsOKpairs twinPairs MerrellGraph.halfEdge
  rw [all_map_gen]
  apply list_all_congr
  intro he _
  dsimp only
  rw [List.find?_map]
  rw [show ((fun q : Int × Int => q.1 == he.twin) ∘
      (fun x : MGHalfEdge => (x.id, x.twin))) =
      (fun x : MGHalfEdge => x.id == he.twin) from rfl]
  cases hf : g.halfEdges.find? (fun x : MGHalfEdge => x.id == he.twin) <;> rfl

theorem twinSymOK_proj_congr (g1 g2 : MerrellGraph)
    (h : twinPairs g1.halfEdges = twinPairs g2.halfEdges) :
    twinSymOK g1 = twinSymOK g2 := by
  rw [twinSymOK_eq_pairs, twinSymOK_eq_pairs, h]

theorem twinPairs_updFirstHE (l : List MGHalfEdge) (i : Int)
    (f : MGHalfEdge → MGHalfEdge)
    (hf : ∀ he, (f he).id = he.id ∧ (f he).twin = he.twin) :
    twinPairs (updFirstHE l i f) = twinPairs l := by
  induction l with
  | nil => rfl
  | cons he rest ih =>
    simp only [updFirstHE]
    split
    · unfold twinPairs
      simp only [List.map_cons]
      rw [(hf he).1, (hf he).2]
    · unfold twinPairs at ih ⊢
      simp only [List.map_cons, ih]

theorem twinPairs_removePatch (g : MerrellGraph) (i : Int) :
    twinPairs (removePatch g i).halfEdges = twinPairs g.halfEdges := by
  unfold removePatch
  cases g.halfEdge i with
  | none => rfl
  | some h =>
    by_cases h1 : h.prev ≥ 0 <;> by_cases h2 : h.next ≥ 0 <;>
      simp only [h1, h2, if_true, if_false, ite_true, ite_false]
    · rw [twinPairs_updFirstHE _ _ _
          (fun he => by by_cases hc : he.prev = i <;> simp [hc]),
        twinPairs_updFirstHE _ _ _
          (fun he => by by_cases hc : he.next = i <;> simp [hc])]
    · rw [twinPairs_updFirstHE _ _ _
          (fun he => by by_cases hc : he.next = i <;> simp [hc])]
    · rw [twinPairs_updFirstHE _ _ _
          (fun he => by by_cases hc : he.prev = i <;> simp [hc])]

theorem twinPairs_mergeVertices (g : MerrellGraph) (f t : Int) :
    twinPairs (g.mergeVertices f t).halfEdges = twinPairs g.halfEdges := by
  unfold MerrellGraph.mergeVertices
  split
  · rfl
  · dsimp only
    unfold twinPairs
    rw [List.map_map]
    apply List.map_congr_left
    intro he _
    dsimp only [Function.comp]
    split <;> rfl

theorem twinSymOK_mergeVertices (g : MerrellGraph) (f t : Int)
    (hok : twinSymOK g = true) :
    twinSymOK (g.mergeVertices f t) = true := by
  rw [twinSymOK_proj_congr _ g (twinPairs_mergeVertices g f t)]
  exact hok

theorem twinPairs_linkFaceLoop (g : MerrellGraph) (faceId : Int)
    (heIds : List Int) :
    twinPairs (g.linkFaceLoop faceId heIds).halfEdges = twinPairs g.halfEdges := by
  unfold MerrellGraph.linkFaceLoop
  by_cases hemp : heIds.isEmpty = true
  · rw [if_pos hemp]
  · rw [if_neg hemp]
    cases hface : g.face faceId with
    | none => rfl
    | some f =>
      dsimp only
      apply foldl_pres (fun (gg : MerrellGraph) => twinPairs gg.halfEdges = twinPairs g.halfEdges)
      · intro b a hb
        dsimp only
        split
        · exact hb
        · next he hfind =>
          split
          · exact hb
          · next v hv =>
            split
            · exact hb
            · exact hb
      · dsimp only
        apply foldl_pres (fun (gg : MerrellGraph) => twinPairs gg.halfEdges = twinPairs g.halfEdges)
        · intro b i hb
          dsimp only
          split <;>
            first
              | exact hb
              | (dsimp only
                 rw [twinPairs_updFirstHE]
                 exact hb
                 exact fun he => ⟨rfl, rfl⟩)
        · rfl

theorem twinSymOK_linkFaceLoop (g : MerrellGraph) (faceId : Int)
    (heIds : List Int) (hok : twinSymOK g = true) :
    twinSymOK (g.linkFaceLoop faceId heIds) = true := by
  rw [twinSymOK_proj_congr _ g (twinPairs_linkFaceLoop g faceId heIds)]
  exact hok

theorem find?_filter_keep_mem {α : Type} (p q : α → Bool) :
    ∀ (l : List α), (∀ a ∈ l, p a = true → q a = true) →
      (l.filter q).find? p = l.find? p := by
  intro l
  induction l with
  | nil => intro _; rfl
  | cons a t ih =>
    intro h
    by_cases hp : p a = true
    · rw [List.filter_cons_of_pos (h a (List.mem_cons_self a t) hp)]
      simp only [List.find?_cons, hp]
    · have hp' : p a = false := by simpa using hp
      by_cases hq : q a = true
      · rw [List.filter_cons_of_pos hq]
        simp only [List.find?_cons, hp']
        exact ih (fun x hx => h x (List.mem_cons_of_mem a hx))
      · rw [List.filter_cons_of_neg (by simpa using hq)]
        simp only [List.find?_cons, hp']
        exact ih (fun x hx => h x (List.mem_cons_of_mem a hx))

theorem map_proj_filter_congr (a b : Int) :
    ∀ (l1 l2 : List MGHalfEdge),
      l1.map (fun he => (he.id, he.twin)) = l2.map (fun he => (he.id, he.twin)) →
      (l1.filter (fun x => !(x.id == a || x.id == b))).map
        (fun he => (he.id, he.twin)) =
      (l2.filter (fun x => !(x.id == a || x.id == b))).map
        (fun he => (he.id, he.twin)) := by
  intro l1
  induction l1 with
  | nil =>
    intro l2 h
    cases l2 with
    | nil => rfl
    | cons y ys => exact absurd h (by simp)
  | cons x xs ih =>
    intro l2 h
    cases l2 with
    | nil => exact absurd h (by simp)
    | cons y ys =>
      rw [List.map_cons, List.map_cons] at h
      have hh : (x.id, x.twin) = (y.id, y.twin) := by
        have := List.head_eq_of_cons_eq h
        exact this
      have ht : xs.map (fun he => (he.id, he.twin)) =
          ys.map (fun he => (he.id, he.twin)) := List.tail_eq_of_cons_eq h
      rw [Prod.mk.injEq] at hh
      rw [List.filter_cons, List.filter_cons, hh.1]
      by_cases hk : (!(y.id == a || y.id == b)) = true
      · rw [if_pos hk, if_pos hk, List.map_cons, List.map_cons, hh.1, hh.2,
          ih ys ht]
      · rw [if_neg (by simp [hk]), if_neg (by simp [hk])]
        exact ih ys ht

theorem twinSymOK_filter_pair (g : MerrellGraph) (heId : Int) (he0 : MGHalfEdge)
    (hfind0 : g.halfEdge heId = some he0)
    (hnonneg : ∀ x ∈ g.halfEdges, 0 ≤ x.id)
    (huniq : ∀ x ∈ g.halfEdges, ∀ y ∈ g.halfEdges, x.id = y.id → x = y)
    (hok : twinSymOK g = true) :
    twinSymOK { g with halfEdges := (g.halfEdges.filter
      (fun h => !(h.id == heId || h.id == he0.twin))) } = true := by
  unfold MerrellGraph.halfEdge at hfind0
  have h0mem := List.mem_of_find?_eq_some hfind0
  have h0id : he0.id = heId := by
    have := List.find?_some hfind0
    simpa using this
  unfold twinSymOK at hok ⊢
  rw [List.all_eq_true] at hok ⊢
  intro he' hmem'
  have hmem : he' ∈ g.halfEdges := List.mem_of_mem_filter hmem'
  have hkeep := List.of_mem_filter hmem'
  have hkid1 : he'.id ≠ heId := by
    intro hcon
    rw [hcon] at hkeep
    simp at hkeep
  have hkid2 : he'.id ≠ he0.twin := by
    intro hcon
    rw [hcon] at hkeep
    simp at hkeep
  have hp := hok he' hmem
  rw [Bool.or_eq_true] at hp ⊢
  rcases hp with h | h
  · exact Or.inl h
  · right
    unfold MerrellGraph.halfEdge at h ⊢
    dsimp only
    cases hfindm : g.halfEdges.find? (fun x => x.id == he'.twin) with
    | none =>
      rw [hfindm] at h
      simp at h
    | some mate =>
      rw [hfindm] at h
      have hmmem := List.mem_of_find?_eq_some hfindm
      have hmid : mate.id = he'.twin := by
        have := List.find?_some hfindm
        simpa using this
      have hmtw : mate.twin = he'.id := by simpa using h
      have hkm1 : mate.id ≠ heId := by
        intro hcon
        have hme : mate = he0 := huniq mate hmmem he0 h0mem (by rw [hcon, h0id])
        exact hkid2 (by rw [← hmtw, hme])
      have hkm2 : mate.id ≠ he0.twin := by
        intro hcon
        by_cases hneg : he0.twin = -1
        · rw [hneg] at hcon
          have := hnonneg mate hmmem
          omega
        · have hp0 := hok he0 h0mem
          rw [Bool.or_eq_true] at hp0
          rcases hp0 with h0 | h0
          · exact hneg (by simpa using h0)
          · unfold MerrellGraph.halfEdge at h0
            cases hfind2 : g.halfEdges.find? (fun x => x.id == he0.twin) with
            | none =>
              rw [hfind2] at h0
              simp at h0
            | some mate2 =>
              rw [hfind2] at h0
              have hm2mem := List.mem_of_find?_eq_some hfind2
              have hm2id : mate2.id = he0.twin := by
                have := List.find?_some hfind2
                simpa using this
              have hmm2 : mate = mate2 :=
                huniq mate hmmem mate2 hm2mem (by rw [hcon, hm2id])
              have hm2tw : mate2.twin = he0.id := by simpa using h0
              exact hkid1 (by rw [← hmtw, hmm2, hm2tw, h0id])
      have hcompat : ∀ x ∈ g.halfEdges, (fun y : MGHalfEdge => y.id == he'.twin) x = true →
          (fun h : MGHalfEdge => !(h.id == heId || h.id == he0.twin)) x = true := by
        intro x hx hpx
        have hxid : x.id = he'.twin := by simpa using hpx
        have hxm : x = mate := huniq x hx mate hmmem (by rw [hxid, hmid])
        rw [hxm]
        simp [hkm1, hkm2]
      rw [find?_filter_keep_mem _ _ g.halfEdges hcompat, hfindm]
      exact h

theorem twinSymOK_removeHEP (g : MerrellGraph) (heId : Int)
    (hsane : heSane g = true) (hdist : heIdsDistinct g = true)
    (hok : twinSymOK g = true) :
    twinSymOK (g.removeHalfEdgePair heId) = true := by
  have hnonneg : ∀ x ∈ g.halfEdges, 0 ≤ x.id := by
    unfold heSane at hsane
    rw [List.all_eq_true] at hsane
    intro x hx
    have := hsane x hx
    rw [Bool.and_eq_true] at this
    simpa using this.1
  have huniq : ∀ x ∈ g.halfEdges, ∀ y ∈ g.halfEdges, x.id = y.id → x = y := by
    unfold heIdsDistinct at hdist
    have hnd : (g.halfEdges.map (fun he => he.id)).Nodup := by simpa using hdist
    intro x hx y hy hxy
    exact List.inj_on_of_nodup_map hnd hx hy hxy
  unfold MerrellGraph.removeHalfEdgePair
  cases hfind : g.halfEdge heId with
  | none => exact hok
  | some he0 =>
    dsimp only
    have hpairs : twinPairs (if he0.twin ≠ -1
        then removePatch (removePatch g heId) he0.twin
        else removePatch g heId).halfEdges = twinPairs g.halfEdges := by
      by_cases ht : he0.twin ≠ -1
      · rw [if_pos ht, twinPairs_removePatch, twinPairs_removePatch]
      · rw [if_neg ht, twinPairs_removePatch]
    refine Eq.trans (twinSymOK_proj_congr _ { g with halfEdges := (g.halfEdges.filter
        (fun h => !(h.id == heId || h.id == he0.twin))) } ?_) ?_
    · unfold twinPairs at hpairs ⊢
      exact map_proj_filter_congr heId he0.twin _ _ hpairs
    · exact twinSymOK_filter_pair g heId he0 hfind hnonneg huniq hok

theorem twinSymOK_addHEP (g : MerrellGraph) (v0 v1 : Int) (label : EdgeLabel)
    (hlt : ∀ he ∈ g.halfEdges, he.id < g.nextHalfEdgeId)
    (hok : twinSymOK g = true) :
    twinSymOK (g.addHalfEdgePair v0 v1 label).1 = true := by
  have hnone1 : g.halfEdges.find?
      (fun x : MGHalfEdge => x.id == g.nextHalfEdgeId) = none := by
    rw [List.find?_eq_none]
    intro x hx
    have := hlt x hx
    simp only [beq_iff_eq]
    omega
  have hnone2 : g.halfEdges.find?
      (fun x : MGHalfEdge => x.id == g.nextHalfEdgeId + 1) = none := by
    rw [List.find?_eq_none]
    intro x hx
    have := hlt x hx
    simp only [beq_iff_eq]
    omega
  have hf1 : (g.nextHalfEdgeId == g.nextHalfEdgeId + 1) = false :=
    beq_eq_false_iff_ne.mpr (by omega)
  have ht1 : (g.nextHalfEdgeId + 1 == g.nextHalfEdgeId + 1) = true :=
    beq_self_eq_true _
  have ht0 : (g.nextHalfEdgeId == g.nextHalfEdgeId) = true := beq_self_eq_true _
  unfold MerrellGraph.addHalfEdgePair
  dsimp only
  unfold twinSymOK at hok ⊢
  rw [List.all_eq_true] at hok ⊢
  intro he' hmem
  rw [List.mem_append] at hmem
  rcases hmem with hold | hnew
  · have hp := hok he' hold
    rw [Bool.or_eq_true] at hp ⊢
    rcases hp with h | h
    · exact Or.inl h
    · right
      unfold MerrellGraph.halfEdge at h ⊢
      dsimp only
      cases hfindm : g.halfEdges.find? (fun x => x.id == he'.twin) with
      | none =>
        rw [hfindm] at h
        simp at h
      | some mate =>
        rw [hfindm] at h
        rw [List.find?_append, hfindm]
        exact h
  · rw [List.mem_cons, List.mem_singleton] at hnew
    unfold MerrellGraph.halfEdge
    rcases hnew with h1 | h2
    · subst h1
      dsimp only
      rw [Bool.or_eq_true]
      right
      rw [List.find?_append, hnone2]
      simp [List.find?_cons, hf1, ht1]
    · subst h2
      dsimp only
      rw [Bool.or_eq_true]
      right
      rw [List.find?_append, hnone1]
      simp [List.find?_cons, ht0]

theorem elemEqual_self (a : BoundaryElement) : elemEqual a a = true := by
  simp [elemEqual]

theorem getD_map_range {α : Type} (f : Nat → α) (n i : Nat) (d : α) (h : i < n) :
    ((List.range n).map f).getD i d = f i := by
  rw [List.getD_eq_getElem?_getD, List.getElem?_map, List.getElem?_range h]
  rfl

theorem rotated_elements_eq (s : BoundaryString) (m : Nat)
    (hne : s.elements.isEmpty = false) :
    (s.rotated (Int.ofNat m)).elements =
      (List.range s.elements.length).map
        (fun i => s.elements.getD ((i + m) % s.elements.length) default) := by
  unfold BoundaryString.rotated
  rw [hne]
  rfl

/-! ### Claim theorems -/

/-- C1, counterexample: gluing the `HStraight` and `CornerBR` primitives
(4 vertices and 4 edge-pairs each) along their one compatible open-edge pair
(HStraight's half-edge 6 against CornerBR's half-edge 2, open labels, thetas
differing by exactly `MG_PI`) succeeds and yields 6 vertices but 8 edge
pairs — not the `e₀ + e₁ - 1 = 7` the claim asserts: `loopGlue` re-twins the
two seam half-edge pairs instead of deleting one. -/
theorem C1_counterexample :
    hStraightPrim.edgeCount = 4 ∧ cornerBRPrim.edgeCount = 4 ∧
    hStraightPrim.vertexCount = 4 ∧ cornerBRPrim.vertexCount = 4 ∧
    (hStraightPrim.halfEdge 6).map (fun he => he.label.r) = some "open" ∧
    (cornerBRPrim.halfEdge 2).map (fun he => he.label.r) = some "open" ∧
    absQ (((hStraightPrim.halfEdge 6).getD default).label.theta
         - ((cornerBRPrim.halfEdge 2).getD default).label.theta) = piQ ∧
    (loopGlue hStraightPrim cornerBRPrim 6 2).map
        (fun g => (g.vertexCount, g.edgeCount)) = some (6, 8) ∧
    (loopGlue hStraightPrim cornerBRPrim 6 2).map MerrellGraph.edgeCount ≠
      some 7 := by with_unfolding_all decide

/-- C2, counterexample: two one-edge boundary strings with the same edge
label (`open`) but different edge ids are circularly equal under the spec's
relation (rotation + label equality) yet `isCircularlyEqual` returns
`false`, because the source compares edge ids, not labels. -/
theorem C2_counterexample :
    specCircularlyEqual bsIdZero bsIdOne = true ∧
    bsIdZero.isCircularlyEqual bsIdOne = false := by decide

/-- C3, counterexample: starting from two twin-symmetric graphs built only
with the claim's operations (`c3GraphA` = two `addHalfEdgePair`s then one
`removeHalfEdgePair`, leaving ids 2,3 in a vector of length 2; `c3GraphB` =
one `addHalfEdgePair`), a successful `loopGlue` collides the offset id
spaces, and one further `removeHalfEdgePair` leaves a half-edge whose twin
field (2) names a half-edge that no longer exists at all — twin symmetry is
not an invariant of arbitrary sequences of the listed operations. -/
theorem C3_counterexample :
    twinSymOK c3GraphA = true ∧ twinSymOK c3GraphB = true ∧
    (loopGlue c3GraphA c3GraphB 2 0).map
        (fun g => twinSymOK (g.removeHalfEdgePair 2)) = some false := by decide

/-- C6, counterexample: with the `HStraight`-only vocabulary and
`maxRules = 1`, a single `tryLoopGluings` call on the seeded hierarchy adds
2 new nodes — more than `settings.maxRules` — because the safety cap is only
checked between ordered node pairs, not inside a pair's open-edge loops. -/
theorem C6_counterexample :
    c6State.settings.maxRules = 1 ∧
    (tryLoopGluings c6State 0).hierarchy.length = c6State.hierarchy.length + 2 := by
  with_unfolding_all decide

/-- C7, counterexample: after a successful extraction, reloading with an
empty vocabulary leaves a state with no primitives but a non-empty rule set;
calling `extractGrammar` on it takes the guarded error path yet still clears
the previously extracted rule set (the `m_rules.clear()` runs before the
guard), so the state is not exactly as it was before the call. -/
theorem C7_counterexample :
    c7s3.primitives = [] ∧
    c7s3.rules ≠ [] ∧
    c7s4.rules = [] ∧
    c7s4.lastError = "No primitives. Call loadFromTiles() first." ∧
    c7s4.hierarchy = c7s3.hierarchy ∧
    c7s4.result = c7s3.result := by with_unfolding_all decide

/-- C8, counterexample: the cached generation-0 boundary of each primitive
is its full face loop — a clockwise unit square — whose total turn count is
`-4` for both `HStraight` and `CornerBR`, not the `0` and `+1` the claim
asserts. -/
theorem C8_counterexample :
    (c8Seeded.hierarchy.map (fun n => (n.graph.faces.map (fun f => f.label),
        n.boundary.totalTurnCount))) =
      [(["HStraight"], -4), (["CornerBR"], -4)] := by with_unfolding_all decide

/-- C8, amended: disassembly of the two-tile vocabulary produces exactly two
generation-0 nodes, each with 4 vertices, 4 edge-pairs, exactly 2 half-edges
labelled `open` and 2 labelled `exterior`, and a cached boundary with total
turn count `-4` (a complete clockwise square) for both primitives. -/
theorem C8_disassembly :
    c8Seeded.hierarchy.length = 2 ∧
    c8Seeded.hierarchy.map (fun n => n.generation) = [0, 0] ∧
    c8Seeded.hierarchy.map (fun n => n.graph.vertexCount) = [4, 4] ∧
    c8Seeded.hierarchy.map (fun n => n.graph.edgeCount) = [4, 4] ∧
    c8Seeded.hierarchy.map (fun n =>
      (n.graph.halfEdges.filter (fun he => he.label.r == "open")).length) = [2, 2] ∧
    c8Seeded.hierarchy.map (fun n =>
      (n.graph.halfEdges.filter (fun he => he.label.r == "exterior")).length) = [2, 2] ∧
    c8Seeded.hierarchy.map (fun n => n.boundary.totalTurnCount) = [-4, -4] ∧
    c8Seeded.hierarchy.map (fun n => n.isComplete) = [true, true] := by
  with_unfolding_all decide

/-- C9, counterexample: `linkFaceLoop` caches `outgoing_he = 0` on vertex 0;
`removeHalfEdgePair 0` deletes that half-edge and its twin without updating
or clearing the cache, leaving vertex 0 pointing at a half-edge that no
longer exists. -/
theorem C9_counterexample :
    outgoingOK c9Graph = true ∧
    ((c9Graph.vertex 0).map (fun v => v.outgoing_he)) = some 0 ∧
    (c9Graph.removeHalfEdgePair 0).halfEdges = [] ∧
    outgoingOK (c9Graph.removeHalfEdgePair 0) = false := by decide

/-- C7, amended: with no primitives loaded, `extractGrammar` records the
error string and returns early; the hierarchy, the generation result and the
settings are exactly as they were, but the rule set is cleared at entry
(only when it was already empty — as in any state where `loadFromTiles` was
never run — is it unchanged). -/
theorem C7_extract_without_primitives (st : GrammarState)
    (h : st.primitives = []) :
    extractGrammar st =
      { st with rules := [], lastError := "No primitives. Call loadFromTiles() first." } := by
  obtain ⟨se, pr, hi, ru, re, le⟩ := st
  simp only [GrammarState.primitives] at h
  subst h
  rfl

/-- Witness for C7's amended theorem at the fresh controller state. -/
theorem C7_witness :
    ({} : GrammarState).primitives = [] ∧
    extractGrammar {} =
      { ({} : GrammarState) with rules := [], lastError := "No primitives. Call loadFromTiles() first." } :=
  ⟨rfl, C7_extract_without_primitives {} rfl⟩

/-- C10: for a boundary string of length `n` and `0 ≤ k < n`, `rotated k`
preserves the length, the original is circularly equal to the rotated copy,
and `rotated 0` returns an element-wise equal copy. -/
theorem C10_rotated_equiv (s : BoundaryString) (k : Nat)
    (hk : k < s.elements.length) :
    (s.rotated (Int.ofNat k)).elements.length = s.elements.length ∧
    s.isCircularlyEqual (s.rotated (Int.ofNat k)) = true ∧
    (s.rotated 0).elements = s.elements := by
  have hne : s.elements.isEmpty = false := by
    cases hl : s.elements with
    | nil => rw [hl] at hk; simp at hk
    | cons a l => simp
  refine ⟨?_, ?_, ?_⟩
  · rw [rotated_elements_eq s k hne]
    simp
  · unfold BoundaryString.isCircularlyEqual
    rw [rotated_elements_eq s k hne]
    rw [List.length_map, List.length_range]
    rw [if_neg (fun hcon => hcon rfl)]
    rw [hne]
    rw [if_neg (fun hcon : (false = true) => Bool.noConfusion hcon)]
    rw [List.any_eq_true]
    refine ⟨k, List.mem_range.2 hk, ?_⟩
    rw [List.all_eq_true]
    intro i hi
    rw [List.mem_range] at hi
    rw [getD_map_range _ _ _ _ hi]
    exact elemEqual_self _
  · rw [show (0 : Int) = Int.ofNat 0 from rfl, rotated_elements_eq s 0 hne]
    apply List.ext_getElem
    · simp
    · intro i h1 h2
      rw [List.getElem_map, List.getElem_range]
      rw [Nat.add_zero, Nat.mod_eq_of_lt h2]
      exact List.getD_eq_getElem s.elements default h2

/-- Witness for C10 at a concrete two-element boundary string, offset 1. -/
theorem C10_witness :
    (1 : Nat) < c10Demo.elements.length ∧
    ((c10Demo.rotated (Int.ofNat 1)).elements.length = c10Demo.elements.length ∧
     c10Demo.isCircularlyEqual (c10Demo.rotated (Int.ofNat 1)) = true ∧
     (c10Demo.rotated 0).elements = c10Demo.elements) :=
  ⟨by decide, C10_rotated_equiv c10Demo 1 (by decide)⟩

/-- C2, amended: `isCircularlyEqual` decides exactly the id-comparing
circular-equality relation: equal lengths and (unless empty) some rotation
offset aligning the strings under `elemEqual` (turn types at turns, edge ids
at edges; labels are never consulted). -/
theorem C2_circular_equality (s t : BoundaryString) :
    s.isCircularlyEqual t = true ↔ CircEqById s t := by
  unfold BoundaryString.isCircularlyEqual CircEqById
  by_cases hlen : s.elements.length = t.elements.length
  · rw [if_neg (fun hcon => hcon hlen)]
    by_cases hemp : s.elements = []
    · have hb : s.elements.isEmpty = true := by rw [hemp]; rfl
      rw [hb]
      rw [if_pos rfl]
      simp [hemp, hlen]
      rw [← hlen, hemp]
      rfl
    · have hb : s.elements.isEmpty = false := by
        cases hcase : s.elements with
        | nil => exact absurd hcase hemp
        | cons a l => rfl
      rw [hb]
      rw [if_neg (fun hcon : (false = true) => Bool.noConfusion hcon)]
      rw [List.any_eq_true]
      constructor
      · rintro ⟨offset, hoff, hall⟩
        rw [List.mem_range] at hoff
        rw [List.all_eq_true] at hall
        exact ⟨hlen, Or.inr ⟨offset, hoff,
          fun i hi => hall i (List.mem_range.2 hi)⟩⟩
      · rintro ⟨_, (h | ⟨offset, hoff, hall⟩)⟩
        · exact absurd h hemp
        · refine ⟨offset, List.mem_range.2 hoff, ?_⟩
          rw [List.all_eq_true]
          intro i hi
          exact hall i (List.mem_range.1 hi)
  · rw [if_pos hlen]
    constructor
    · intro h; exact absurd h (by simp)
    · rintro ⟨h, _⟩; exact absurd h hlen

/-- C9, amended: the cached `outgoing_he` invariant is preserved by
`linkFaceLoop` and `mergeVertices` unconditionally; `removeHalfEdgePair`
preserves it only when no vertex's cache references the removed half-edge or
its twin (the operation never updates or clears the cache). -/
theorem C9_outgoing_preservation (g : MerrellGraph) (faceId : Int)
    (heIds : List Int) (fromId toId heId : Int)
    (hok : outgoingOK g = true) :
    outgoingOK (g.linkFaceLoop faceId heIds) = true ∧
    outgoingOK (g.mergeVertices fromId toId) = true ∧
    ((∀ v ∈ g.vertices, v.outgoing_he ≠ heId ∧
        ((g.halfEdge heId).isSome = true →
          v.outgoing_he ≠ ((g.halfEdge heId).getD default).twin)) →
      outgoingOK (g.removeHalfEdgePair heId) = true) :=
  ⟨outgoingOK_linkFaceLoop g faceId heIds hok,
   outgoingOK_mergeVertices g fromId toId hok,
   fun hrem => outgoingOK_removeHEP g heId hrem hok⟩

/-- Witness for C9's amended theorem on the concrete cached graph. -/
theorem C9_witness :
    outgoingOK c9Graph = true ∧
    (outgoingOK (c9Graph.linkFaceLoop 0 [0]) = true ∧
     outgoingOK (c9Graph.mergeVertices 1 0) = true ∧
     ((∀ v ∈ c9Graph.vertices, v.outgoing_he ≠ 2 ∧
         ((c9Graph.halfEdge 2).isSome = true →
           v.outgoing_he ≠ ((c9Graph.halfEdge 2).getD default).twin)) →
       outgoingOK (c9Graph.removeHalfEdgePair 2) = true)) :=
  ⟨by decide, C9_outgoing_preservation c9Graph 0 [0] 1 0 2 (by decide)⟩

/-- C4: for a pair of half-edges whose thetas are not complementary (do not
differ by π within 1e-4), the inner gluing step of `tryLoopGluings` returns
its accumulator unchanged — no hierarchy node is produced, and since
`loopGlue` is never reached the graphs `A` and `B` are not consulted beyond
the theta test; for thetas in `[0, 2π)` the coded complementarity
disjunction is exactly `|‖θA − θB‖ − π| < 1e-4` (its second, 3π disjunct is
unreachable); and a `tryLoopGluings` call only appends hierarchy nodes,
leaving every pre-existing node — hence every input graph stored in the
hierarchy — unmodified. -/
theorem C4_noncomplementary (st : GrammarState) (generation gen2 : Int)
    (ai bi : Nat) (A B : MerrellGraph) (acc : GlueAcc) (hA hB : Int)
    (eA eB : MGHalfEdge)
    (hfA : A.halfEdge hA = some eA) (hfB : B.halfEdge hB = some eB)
    (ha0 : 0 ≤ eA.label.theta) (ha2 : eA.label.theta < 2 * piQ)
    (hb0 : 0 ≤ eB.label.theta) (hb2 : eB.label.theta < 2 * piQ)
    (hnc : ¬ absQ (absQ (eA.label.theta - eB.label.theta) - piQ) < mkRat 1 10000) :
    glueStep generation ai bi A B acc (hA, hB) = acc ∧
    ((absQ (absQ (eA.label.theta - eB.label.theta) - piQ) < mkRat 1 10000 ∨
        absQ (absQ (eA.label.theta - eB.label.theta) - piQ - 2 * piQ) < mkRat 1 10000) ↔
      absQ (absQ (eA.label.theta - eB.label.theta) - piQ) < mkRat 1 10000) ∧
    (∃ added, (tryLoopGluings st gen2).hierarchy = st.hierarchy ++ added) := by
  have hnc2 : ¬ (absQ (absQ (eA.label.theta - eB.label.theta) - piQ) < mkRat 1 10000 ∨
      absQ (absQ (eA.label.theta - eB.label.theta) - piQ - 2 * piQ) < mkRat 1 10000) :=
    fun hcomp => hnc ((comp_iff _ _ ha0 ha2 hb0 hb2).mp hcomp)
  refine ⟨?_, comp_iff _ _ ha0 ha2 hb0 hb2, tryLoopGluings_append st gen2⟩
  unfold glueStep
  dsimp only
  rw [hfA, hfB]
  dsimp only
  rw [if_neg hnc2]

/-- Witness for C4: half-edge 2 of each primitive has theta 3π/2 on both
sides, so the pair is non-complementary and the glue step is a no-op. -/
theorem C4_witness :
    glueStep 0 0 1 hStraightPrim cornerBRPrim {} (2, 2) = {} :=
  (C4_noncomplementary c8Seeded 0 7 0 1 hStraightPrim cornerBRPrim {} 2 2
      ((hStraightPrim.halfEdge 2).getD default)
      ((cornerBRPrim.halfEdge 2).getD default)
      (by with_unfolding_all decide) (by with_unfolding_all decide)
      (by with_unfolding_all decide) (by with_unfolding_all decide)
      (by with_unfolding_all decide) (by with_unfolding_all decide)
      (by with_unfolding_all decide)).1

/-- C5: `tryLoopGluings` deduplicates against the entire hierarchy: provided
every node already present carries a non-empty cached boundary (as every
node built by the pipeline does), a call appends only nodes whose canonical
boundary `toString`s are pairwise distinct and distinct from the cached
boundary `toString` of every node already present in any generation. -/
theorem C5_dedup (st : GrammarState) (gen : Int)
    (hne : ∀ n ∈ st.hierarchy, n.boundary.isEmpty = false) :
    ∃ added, (tryLoopGluings st gen).hierarchy = st.hierarchy ++ added ∧
      added.Pairwise (fun a b => a.boundary.toString ≠ b.boundary.toString) ∧
      (∀ a ∈ added, ∀ n ∈ st.hierarchy,
        a.boundary.toString ≠ n.boundary.toString) := by
  unfold tryLoopGluings
  dsimp only
  split
  · exact ⟨[], (List.append_nil _).symm, List.Pairwise.nil,
      fun a ha => absurd ha (List.not_mem_nil a)⟩
  · have hbase : DedupInv st.hierarchy
        { hier := st.hierarchy,
          seen := st.hierarchy.foldl
            (fun s n => if n.boundary.isEmpty then s
              else s ++ [n.boundary.toString]) [],
          newNodes := 0, stopped := false } :=
      ⟨[], (List.append_nil _).symm,
       fun a ha => absurd ha (List.not_mem_nil a),
       List.Pairwise.nil,
       fun a ha => absurd ha (List.not_mem_nil a),
       fun n hn => seen_fold_mem st.hierarchy [] n hn (hne n hn)⟩
    obtain ⟨added, h1, h2, h3, h4, h5⟩ :=
      foldl_pres (DedupInv st.hierarchy) (tryPair st.settings gen)
        (tryPair_dedup st.hierarchy st.settings gen) _ _ hbase
    exact ⟨added, h1, h3, h4⟩

/-- Witness for C5 at the seeded two-tile hierarchy, generation 0. -/
theorem C5_witness :
    (∀ n ∈ c8Seeded.hierarchy, n.boundary.isEmpty = false) ∧
    (∃ added, (tryLoopGluings c8Seeded 0).hierarchy = c8Seeded.hierarchy ++ added ∧
      added.Pairwise (fun a b => a.boundary.toString ≠ b.boundary.toString) ∧
      (∀ a ∈ added, ∀ n ∈ c8Seeded.hierarchy,
        a.boundary.toString ≠ n.boundary.toString)) :=
  ⟨by with_unfolding_all decide, C5_dedup c8Seeded 0 (by with_unfolding_all decide)⟩

/-- C6, amended: the `maxRules`-derived cap is checked only between ordered
node pairs, so a single `tryLoopGluings` call is bounded not by `maxRules`
but by `max (maxRules − 1) 0` plus one full uncapped pair: when every node's
graph carries at most `K` open half-edges, at most
`max (maxRules − 1) 0 + K·K` nodes are added. -/
theorem C6_cap_bound (st : GrammarState) (gen : Int) (K : Nat)
    (hK : ∀ n ∈ st.hierarchy, (n.graph.halfEdges.filter
        (fun he => he.label.r == "open")).length ≤ K) :
    ((tryLoopGluings st gen).hierarchy.length : Int) ≤
      (st.hierarchy.length : Int) + max (st.settings.maxRules - 1) 0 +
        ((K * K : Nat) : Int) := by
  unfold tryLoopGluings
  dsimp only
  split
  · omega
  · exact cap_conclude st.hierarchy st.settings.maxRules K _
      (foldl_pres_mem (CapInv st.hierarchy st.settings.maxRules K)
        (tryPair st.settings gen)
        (((List.range st.hierarchy.length).filter
            (fun i => (st.hierarchy.getD i default).generation == gen)).flatMap
          (fun ai => ((List.range st.hierarchy.length).filter
            (fun i => (st.hierarchy.getD i default).generation == gen)).map
            (fun bi => (ai, bi))))
        (fun acc pq hpq hacc => tryPair_cap st.hierarchy st.settings gen K hK acc pq
          (pair_mem_bound st.hierarchy.length _ pq hpq).1
          (pair_mem_bound st.hierarchy.length _ pq hpq).2 hacc)
        { hier := st.hierarchy,
          seen := st.hierarchy.foldl (fun s n => if n.boundary.isEmpty then s
            else s ++ [n.boundary.toString]) [],
          newNodes := 0, stopped := false }
        ⟨⟨[], (List.append_nil _).symm⟩, by simp, le_refl 0,
         (by dsimp only; omega)⟩)

/-- Witness for C6 at the `HStraight`-only state with `maxRules = 1` and
open-edge bound `K = 2`. -/
theorem C6_witness :
    (∀ n ∈ c6State.hierarchy, (n.graph.halfEdges.filter
        (fun he => he.label.r == "open")).length ≤ 2) ∧
    ((tryLoopGluings c6State 0).hierarchy.length : Int) ≤
      (c6State.hierarchy.length : Int) + max (c6State.settings.maxRules - 1) 0 +
        ((2 * 2 : Nat) : Int) :=
  ⟨by with_unfolding_all decide, C6_cap_bound c6State 0 2 (by with_unfolding_all decide)⟩

/-- C1, amended: `loopGlue` merges two vertex pairs but never deletes a
half-edge pair — it re-twins the seam pairs into interior edges — so a
successful glue of A (v0 vertices, e0 edge-pairs) and B (v1, e1) yields
v0 + v1 − 2 vertices and e0 + e1 edge-pairs (not e0 + e1 − 1): this holds
whenever the combined id space is well formed, i.e. the four seam lookups
resolve, the two merges identify pairwise distinct vertices that occur
exactly once each, and A's half-edge list pairs up evenly. -/
theorem C1_glue_counts (A B : MerrellGraph) (hA hB : Int)
    (a0 b0 at0 bt0 : MGHalfEdge) (g : MerrellGraph)
    (ha0 : (glueCombined A B hA hB).halfEdge hA = some a0)
    (hb0 : (glueCombined A B hA hB).halfEdge
      (hB + Int.ofNat A.halfEdges.length) = some b0)
    (hat : (glueCombined A B hA hB).halfEdge a0.twin = some at0)
    (hbt : (glueCombined A B hA hB).halfEdge b0.twin = some bt0)
    (hne1 : b0.vertex ≠ at0.vertex) (hne2 : bt0.vertex ≠ a0.vertex)
    (hneBB : bt0.vertex ≠ b0.vertex)
    (hcount1 : ((glueCombined A B hA hB).vertices.filter
      (fun v => v.id == b0.vertex)).length = 1)
    (hcount2 : ((glueCombined A B hA hB).vertices.filter
      (fun v => v.id == bt0.vertex)).length = 1)
    (hEven : A.halfEdges.length % 2 = 0)
    (hsucc : loopGlue A B hA hB = some g) :
    g.vertexCount = A.vertexCount + B.vertexCount - 2 ∧
    g.edgeCount = A.edgeCount + B.edgeCount := by
  obtain ⟨hv, he⟩ := loopGlue_lengths A B hA hB a0 b0 at0 bt0 g ha0 hb0 hat hbt
    hne1 hne2 hneBB hcount1 hcount2 hsucc
  unfold MerrellGraph.vertexCount MerrellGraph.edgeCount
  simp only [Int.ofNat_eq_coe]
  constructor <;> omega

/-- Witness for C1: the concrete HStraight–CornerBR glue along half-edges
6 and 2 succeeds and yields 6 vertices (4 + 4 − 2) and 8 edge-pairs
(4 + 4). -/
theorem C1_witness :
    loopGlue hStraightPrim cornerBRPrim 6 2 = some c1res ∧
    c1res.vertexCount = hStraightPrim.vertexCount + cornerBRPrim.vertexCount - 2 ∧
    c1res.edgeCount = hStraightPrim.edgeCount + cornerBRPrim.edgeCount :=
  ⟨by with_unfolding_all decide,
   C1_glue_counts hStraightPrim cornerBRPrim 6 2 c1a0 c1b0 c1at c1bt c1res
     (by with_unfolding_all decide) (by with_unfolding_all decide)
     (by with_unfolding_all decide) (by with_unfolding_all decide)
     (by with_unfolding_all decide) (by with_unfolding_all decide)
     (by with_unfolding_all decide) (by with_unfolding_all decide)
     (by with_unfolding_all decide) (by with_unfolding_all decide)
     (by with_unfolding_all decide)⟩

/-- C3, amended: twin symmetry is not an unconditional invariant of
arbitrary operation sequences (see the counterexample), but it is preserved
by each operation under natural id-space health conditions: by
`addHalfEdgePair` whenever every existing half-edge id lies below the id
counter, by `linkFaceLoop` and `mergeVertices` unconditionally (they never
touch `twin` fields), and by `removeHalfEdgePair` on graphs with
non-negative, pairwise distinct half-edge ids. -/
theorem C3_twin_preservation (g : MerrellGraph) (v0 v1 : Int)
    (label : EdgeLabel) (faceId : Int) (heIds : List Int)
    (fromId toId heId : Int) (hok : twinSymOK g = true) :
    ((∀ he ∈ g.halfEdges, he.id < g.nextHalfEdgeId) →
      twinSymOK (g.addHalfEdgePair v0 v1 label).1 = true) ∧
    twinSymOK (g.linkFaceLoop faceId heIds) = true ∧
    twinSymOK (g.mergeVertices fromId toId) = true ∧
    (heSane g = true → heIdsDistinct g = true →
      twinSymOK (g.removeHalfEdgePair heId) = true) :=
  ⟨fun hlt => twinSymOK_addHEP g v0 v1 label hlt hok,
   twinSymOK_linkFaceLoop g faceId heIds hok,
   twinSymOK_mergeVertices g fromId toId hok,
   fun hsane hdist => twinSymOK_removeHEP g heId hsane hdist hok⟩

/-- Witness for C3 at the concrete single-pair graph. -/
theorem C3_witness :
    twinSymOK c3GraphB = true ∧
    (((∀ he ∈ c3GraphB.halfEdges, he.id < c3GraphB.nextHalfEdgeId) →
        twinSymOK (c3GraphB.addHalfEdgePair 0 1 default).1 = true) ∧
      twinSymOK (c3GraphB.linkFaceLoop 0 [0]) = true ∧
      twinSymOK (c3GraphB.mergeVertices 1 0) = true ∧
      (heSane c3GraphB = true → heIdsDistinct c3GraphB = true →
        twinSymOK (c3GraphB.removeHalfEdgePair 0) = true)) :=
  ⟨by with_unfolding_all decide,
   C3_twin_preservation c3GraphB 0 1 default 0 [0] 1 0 0
     (by with_unfolding_all decide)⟩

end Merrell
